import Mathlib

/-!
The program slack-jira-bot: a shallow embedding and its checked properties.

The Go packages `jira`, `slack/rtm` and `main` are embedded as pure Lean
functions.  Network effects are made explicit: every function that talks to a
server takes the server as a function from the number of requests already made
(and the request) to the answer, and returns the list of requests it issued
next to its Go result.  Loops that Go writes as `for { ... }` take a bound on
the number of iterations; the outcome `none` means the loop is still running
when the bound is reached.
-/

namespace SlackJiraBot

/-! ## Package `jira`: data model (jira/jira.go, jira/agile.go) -/

/-- Go standard-library functions whose code is not part of the repository. -/
structure Lib where
  /-- Whether `net/url` accepts the string, so that `http.NewRequest` succeeds. -/
  urlOK : String → Bool
  /-- The map `unicode.ToUpper` on runes outside ASCII. -/
  upperRune : Char → Char
  /-- The map `unicode.ToLower` on runes outside ASCII. -/
  lowerRune : Char → Char

structure User where
  Name : String
  DisplayName : String
deriving DecidableEq, Repr

structure IssueType where
  ID : String
  Name : String
deriving DecidableEq, Repr

structure IssueStatusCategory where
  ID : Int
  Name : String
  ColorName : String
deriving DecidableEq, Repr

structure IssueStatus where
  ID : String
  Name : String
  Category : IssueStatusCategory
deriving DecidableEq, Repr

structure Version where
  ID : String
  Name : String
  Archived : Bool
  Released : Bool
deriving DecidableEq, Repr

structure Component where
  ID : String
  Name : String
deriving DecidableEq, Repr

structure IssueFields where
  Summary : String
  Description : String
  Reporter : User
  IssueType : IssueType
  FixVersions : List Version
  Assignee : Option User
  Components : List Component
  Status : IssueStatus
deriving DecidableEq, Repr

structure Issue where
  Key : String
  Fields : IssueFields
deriving DecidableEq, Repr

/-- The type `Sprint`; the two `time.Time` fields are kept as their JSON text. -/
structure Sprint where
  ID : Int
  State : String
  Name : String
  StartDate : String
  EndDate : String
deriving DecidableEq, Repr

def SprintStateActive : String := "active"

def SprintStateClosed : String := "closed"

structure TransitionID where
  ID : String
deriving DecidableEq, Repr

structure Transition extends TransitionID where
  Name : String
  To : IssueStatus
deriving DecidableEq, Repr

structure GetTransitionsResponse where
  Transitions : List Transition
deriving DecidableEq, Repr

structure TransitionUpdateComment where
  Body : String
deriving DecidableEq, Repr

/-- The type `TransitionUpdate`; each map of the Go slice is its list of entries. -/
structure TransitionUpdate where
  Comment : List (List (String × TransitionUpdateComment))
deriving DecidableEq, Repr

structure DoTransitionRequest extends TransitionID where
  Update : Option TransitionUpdate
deriving DecidableEq, Repr

structure Pagination where
  MaxResults : Int
  StartAt : Int
deriving DecidableEq, Repr

/-- The types `PaginatedSprints` and `PaginatedIssues`: a `Pagination` and the
items of the page (JSON field `values`, respectively `issues`). -/
structure Paginated (α : Type) extends Pagination where
  Values : List α

abbrev PaginatedSprints := Paginated Sprint

abbrev PaginatedIssues := Paginated Issue

/-! ## Package `jira`: HTTP plumbing -/

/-- An `http.Request` as far as the package builds it.  `URL` is the address up
to the query string and `StartAt` the value of the one query parameter the
package ever adds (`v.Add("startAt", ...)`). -/
structure Request where
  Method : String
  URL : String
  StartAt : Option Int
  ContentType : Option String
  Body : Option DoTransitionRequest
  BasicAuth : Option (String × String)
deriving DecidableEq, Repr

/-- An `http.Response`; `β` is the type of bodies. -/
structure Response (β : Type) where
  StatusCode : Int
  Status : String
  Body : β

structure HTTPError (β : Type) where
  StatusCode : Int
  Status : String
  Body : β

/-- The values of Go type `error` that the package returns. -/
inductive Error (β : Type) where
  /-- `http.NewRequest` rejected the address. -/
  | newRequest (url : String)
  /-- `j.Do` failed. -/
  | transport (msg : String)
  /-- A `*HTTPError`. -/
  | http (e : HTTPError β)
  /-- `json.Decoder.Decode` failed. -/
  | decode (msg : String)
  /-- A `fmt.Errorf` value with the given text. -/
  | errorf (msg : String)

/-- The type `JIRA`.  `Do k r` is the answer of `HTTPDoer.Do` to request `r`
when `k` requests were made before it during the same call. -/
structure JIRA (β : Type) where
  Do : Nat → Request → Except String (Response β)
  URL : String
  Username : String
  Password : String

def NewHTTPError {β : Type} (resp : Response β) : HTTPError β :=
  { StatusCode := resp.StatusCode, Status := resp.Status, Body := resp.Body }

/-- The call `http.NewRequest(method, url, body)`. -/
def NewRequest {β : Type} (L : Lib) (method url : String) (startAt : Option Int)
    (body : Option DoTransitionRequest) : Except (Error β) Request :=
  if L.urlOK url then
    .ok { Method := method, URL := url, StartAt := startAt, ContentType := none,
          Body := body, BasicAuth := none }
  else .error (.newRequest url)

/-- The request as `DoWithAuth` sends it. -/
def withAuth {β : Type} (j : JIRA β) (req : Request) : Request :=
  { req with BasicAuth := some (j.Username, j.Password) }

def JIRA.DoWithAuth {β : Type} (j : JIRA β) (k : Nat) (req : Request) :
    Except String (Response β) :=
  j.Do k (withAuth j req)

/-! ## Paged fetch (jira/agile.go) -/

/-- What a call has done when it is observed: the requests sent, in order, and
the Go result if the call has returned. -/
structure Run (ε ρ : Type) where
  requests : List Request
  outcome : Option (Except ε ρ)

/-- The `for` loop shared, up to the item type, by `GetSprintsOfBoard` and
`GetIssuesOfSprint`: `fuel` bounds the iterations, `startAt` is the loop
variable, `acc` the slice built so far and `log` the requests already sent. -/
def fetchLoop {β α : Type} (L : Lib) (j : JIRA β)
    (decode : β → Except String (Paginated α)) (url : String) :
    Nat → Int → List α → List Request → Run (Error β) (List α)
  | 0, _, _, log => { requests := log, outcome := none }
  | fuel + 1, startAt, acc, log =>
    match NewRequest L "GET" url (some startAt) none with
    | .error e => { requests := log, outcome := some (.error e) }
    | .ok req =>
      match j.DoWithAuth log.length req with
      | .error e =>
        { requests := log ++ [withAuth j req], outcome := some (.error (.transport e)) }
      | .ok resp =>
        if resp.StatusCode ≠ 200 then
          { requests := log ++ [withAuth j req],
            outcome := some (.error (.http (NewHTTPError resp))) }
        else
          match decode resp.Body with
          | .error e =>
            { requests := log ++ [withAuth j req], outcome := some (.error (.decode e)) }
          | .ok page =>
            if (page.Values.length : Int) = page.MaxResults then
              fetchLoop L j decode url fuel (startAt + page.MaxResults)
                (acc ++ page.Values) (log ++ [withAuth j req])
            else
              { requests := log ++ [withAuth j req],
                outcome := some (.ok (acc ++ page.Values)) }

def sprintsURL {β : Type} (j : JIRA β) (boardID : String) : String :=
  j.URL ++ "rest/agile/latest/board/" ++ boardID ++ "/sprint"

def issuesURL {β : Type} (j : JIRA β) (boardID : String) (sprintID : Int) : String :=
  j.URL ++ "rest/agile/latest/board/" ++ boardID ++ "/sprint/" ++ toString sprintID ++ "/issue"

def JIRA.GetSprintsOfBoard {β : Type} (L : Lib) (j : JIRA β)
    (decode : β → Except String PaginatedSprints) (fuel : Nat) (boardID : String) :
    Run (Error β) (List Sprint) :=
  fetchLoop L j decode (sprintsURL j boardID) fuel 0 [] []

def JIRA.GetIssuesOfSprint {β : Type} (L : Lib) (j : JIRA β)
    (decode : β → Except String PaginatedIssues) (fuel : Nat) (boardID : String)
    (sprintID : Int) : Run (Error β) (List Issue) :=
  fetchLoop L j decode (issuesURL j boardID sprintID) fuel 0 [] []

/-- A server that holds `items` and serves them in pages of size `P`: every
request for offset `n` is answered with status 200 and a body that decodes to
`maxResults = P` and the items at positions `[n, n + P)`. -/
def ServesPages {β α : Type} (j : JIRA β) (decode : β → Except String (Paginated α))
    (items : List α) (P : Nat) : Prop :=
  ∀ (k : Nat) (req : Request) (n : Nat), req.StartAt = some (n : Int) →
    ∃ resp page, j.Do k req = .ok resp ∧ resp.StatusCode = 200 ∧
      decode resp.Body = .ok page ∧ page.MaxResults = (P : Int) ∧
      page.Values = (items.drop n).take P

/-! ## Transitions (jira/jira.go) -/

def transitionsURL {β : Type} (j : JIRA β) (issueKey : String) : String :=
  j.URL ++ "rest/api/latest/issue/" ++ issueKey ++ "/transitions"

/-- The loop `for _, t := range getTransitionsResp.Transitions` of
`TransitionIssue`: the value of `transition` after it (`none` for `nil`). -/
def scanTransitions (status : String) : List Transition → Option Transition
  | [] => none
  | t :: rest => if t.To.Name = status then some t else scanTransitions status rest

/-- The value of `doTransitionReq` once the comment has been attached. -/
def mkDoTransitionRequest (transition : Transition) (comment : String) :
    DoTransitionRequest :=
  { ID := transition.ID,
    Update :=
      if comment ≠ "" then some { Comment := [[("add", { Body := comment })]] } else none }

/-- The text of the `fmt.Errorf` value of `TransitionIssue`. -/
def noTransitionMsg (issueKey status : String) : String :=
  "No transition for issue " ++ issueKey ++ " to status " ++ status

/-- The method `TransitionIssue`.  Encoding `doTransitionReq` as JSON cannot
fail (the value holds strings only), so that error branch has no counterpart. -/
def JIRA.TransitionIssue {β : Type} (L : Lib) (j : JIRA β)
    (decode : β → Except String GetTransitionsResponse)
    (issueKey comment status : String) : Run (Error β) Unit :=
  let url := transitionsURL j issueKey
  match NewRequest L "GET" url none none with
  | .error e => { requests := [], outcome := some (.error e) }
  | .ok req =>
    match j.DoWithAuth 0 req with
    | .error e => { requests := [withAuth j req], outcome := some (.error (.transport e)) }
    | .ok resp =>
      if resp.StatusCode ≠ 200 then
        { requests := [withAuth j req], outcome := some (.error (.http (NewHTTPError resp))) }
      else
        match decode resp.Body with
        | .error e => { requests := [withAuth j req], outcome := some (.error (.decode e)) }
        | .ok getTransitionsResp =>
          match scanTransitions status getTransitionsResp.Transitions with
          | none =>
            { requests := [withAuth j req],
              outcome := some (.error (.errorf (noTransitionMsg issueKey status))) }
          | some transition =>
            match NewRequest L "POST" url none
                (some (mkDoTransitionRequest transition comment)) with
            | .error e => { requests := [withAuth j req], outcome := some (.error e) }
            | .ok post =>
              let post := { post with ContentType := some "application/json" }
              match j.DoWithAuth 1 post with
              | .error e =>
                { requests := [withAuth j req, withAuth j post],
                  outcome := some (.error (.transport e)) }
              | .ok resp2 =>
                if resp2.StatusCode ≠ 204 then
                  { requests := [withAuth j req, withAuth j post],
                    outcome := some (.error (.http (NewHTTPError resp2))) }
                else
                  { requests := [withAuth j req, withAuth j post], outcome := some (.ok ()) }

def JIRA.ResolveIssue {β : Type} (L : Lib) (j : JIRA β)
    (decode : β → Except String GetTransitionsResponse) (issueKey comment : String) :
    Run (Error β) Unit :=
  j.TransitionIssue L decode issueKey comment "Resolved"

/-! ## Package `slack/rtm` (slack/rtm/rtm.go) -/

/-- The type `slack.User`. -/
structure SlackUser where
  ID : String
  Name : String
deriving DecidableEq, Repr

structure State where
  Self : SlackUser
  Users : List SlackUser
deriving DecidableEq, Repr

structure MessageMessage where
  Channel : String
  User : String
  Text : String
  Timestamp : String
deriving DecidableEq, Repr

/-- The type `Session`.  `Conn` is the address the websocket was dialled at; the
channel `Incoming` and the goroutine feeding it are not part of the embedding. -/
structure Session extends State where
  Conn : String
  OutgoingID : Int
deriving DecidableEq, Repr

structure startRTMResponse extends State where
  OK : Bool
  ErrorCode : String
  URL : String
deriving DecidableEq, Repr

/-- The type `outgoingMessage`; `Typ` is the Go field `Type`. -/
structure outgoingMessage where
  ID : Int
  Typ : String
  Channel : String
  Text : String
deriving DecidableEq, Repr

/-- The errors of package `rtm`. -/
inductive RTMError where
  /-- `slack.CallAPI` failed. -/
  | call (msg : String)
  /-- The answer to `rtm.start` is not JSON of the expected shape. -/
  | decode (msg : String)
  /-- A `*slack.APIError`. -/
  | api (ErrorCode : String)
  /-- `websocket.Dial` failed. -/
  | dial (msg : String)
  /-- `websocket.JSON.Send` failed. -/
  | send (msg : String)
deriving DecidableEq, Repr

/-- Go `int` arithmetic on a 64-bit platform: the result wrapped into
`[-2^63, 2^63)`. -/
def wrapInt (x : Int) : Int := (x + 2 ^ 63) % 2 ^ 64 - 2 ^ 63

/-- The function `startRTMRequest`; `callAPI` is the result of
`slack.CallAPI("rtm.start", nil)`. -/
def startRTMRequest {β : Type} (callAPI : Except String β)
    (decode : β → Except String startRTMResponse) : Except RTMError startRTMResponse :=
  match callAPI with
  | .error e => .error (.call e)
  | .ok body =>
    match decode body with
    | .error e => .error (.decode e)
    | .ok startRTMResp =>
      if startRTMResp.OK ≠ true then .error (.api startRTMResp.ErrorCode)
      else .ok startRTMResp

/-- The function `StartSession`; `dial url` is the result of `websocket.Dial`. -/
def StartSession {β : Type} (callAPI : Except String β)
    (decode : β → Except String startRTMResponse) (dial : String → Option String) :
    Except RTMError Session :=
  match startRTMRequest callAPI decode with
  | .error e => .error e
  | .ok r =>
    match dial r.URL with
    | some e => .error (.dial e)
    | none => .ok { toState := r.toState, Conn := r.URL, OutgoingID := 1 }

/-- What one call of `SendMessage` does: the frame handed to
`websocket.JSON.Send`, the value returned and the session afterwards. -/
structure Sent where
  frame : outgoingMessage
  err : Option RTMError
  session : Session
deriving DecidableEq, Repr

/-- The method `SendMessage`; `send m` is the result of
`websocket.JSON.Send(s.Conn, m)`, `none` for `nil`. -/
def Session.SendMessage (s : Session) (send : outgoingMessage → Option String)
    (channel text : String) : Sent :=
  let m : outgoingMessage :=
    { ID := s.OutgoingID, Typ := "message", Channel := channel, Text := text }
  match send m with
  | some e => { frame := m, err := some (.send e), session := s }
  | none =>
    { frame := m, err := none, session := { s with OutgoingID := wrapInt (s.OutgoingID + 1) } }

/-- A sequence of `SendMessage` calls on one session, each with its channel and
text; `send k` is the behaviour of the connection at the call number `k`. -/
def sendAll (send : Nat → outgoingMessage → Option String) :
    Nat → Session → List (String × String) → List Sent
  | _, _, [] => []
  | k, s, (channel, text) :: rest =>
    let r := s.SendMessage (send k) channel text
    r :: sendAll send (k + 1) r.session rest

/-- The ids on the frames of a sequence of calls. -/
def frameIDs (l : List Sent) : List Int := l.map fun r => r.frame.ID

/-- The calls whose write succeeded. -/
def written (l : List Sent) : List Sent := l.filter fun r => r.err.isNone

/-! ## Strings (Go package `strings`) -/

/-- The predicate `unicode.IsSpace`. -/
def isSpace (c : Char) : Bool :=
  let n := c.toNat
  (9 ≤ n && n ≤ 13) || n = 32 || n = 0x85 || n = 0xA0 || n = 0x1680 ||
    (0x2000 ≤ n && n ≤ 0x200A) || n = 0x2028 || n = 0x2029 || n = 0x202F ||
    n = 0x205F || n = 0x3000

def TrimSpace (s : List Char) : List Char :=
  ((s.dropWhile isSpace).reverse.dropWhile isSpace).reverse

def upperChar (L : Lib) (c : Char) : Char :=
  if c.toNat < 128 then c.toUpper else L.upperRune c

def lowerChar (L : Lib) (c : Char) : Char :=
  if c.toNat < 128 then c.toLower else L.lowerRune c

def ToUpper (L : Lib) (s : List Char) : List Char := s.map (upperChar L)

def ToLower (L : Lib) (s : List Char) : List Char := s.map (lowerChar L)

/-- The call `strings.Split(s, sep)` for a separator of one character. -/
def Split (sep : Char) : List Char → List (List Char)
  | [] => [[]]
  | c :: cs =>
    if c = sep then [] :: Split sep cs
    else
      match Split sep cs with
      | [] => [[c]]
      | p :: ps => (c :: p) :: ps

/-! ## Regular expressions (Go package `regexp`)

`HandleMessage` builds its four patterns with `fmt.Sprintf` from the bot name and
the project prefix.  The embedding covers the names and prefixes that
`regexp.QuoteMeta` leaves unchanged (and, under the flag `(?i)`, ASCII ones):
for these the patterns have the shape written in the source, and they are given
below as syntax trees.  Matching is the leftmost-first search of package
`regexp`: the first match that a backtracking search finds. -/

/-- A pattern that matches one character. -/
inductive Cls where
  /-- A literal character. -/
  | lit (c : Char)
  /-- A literal character under the flag `(?i)`. -/
  | fold (c : Char)
  /-- The class `[0-9]`. -/
  | digit
  /-- The pattern `.`, which does not match a line feed. -/
  | dot
deriving DecidableEq, Repr

/-- The ASCII letter of the other case, any other character unchanged. -/
def swapCase (c : Char) : Char :=
  if c.isLower then c.toUpper else if c.isUpper then c.toLower else c

/-- Whether the class matches the character.  Under `(?i)` an ASCII letter
matches the runes of its `unicode.SimpleFold` orbit: the letter in both cases
and, for `k` and `s`, the Kelvin sign U+212A and the long s U+017F. -/
def Cls.test : Cls → Char → Bool
  | .lit c, r => r = c
  | .fold c, r =>
    r = c || r = swapCase c || ((c = Char.ofNat 107 || c = Char.ofNat 75) && r.toNat = 0x212A) ||
      ((c = Char.ofNat 115 || c = Char.ofNat 83) && r.toNat = 0x17F)
  | .digit, r => 48 ≤ r.toNat && r.toNat ≤ 57
  | .dot, r => r.toNat ≠ 10

/-- The syntax trees of the patterns in use. -/
inductive Re where
  /-- The pattern `^`: the beginning of the text. -/
  | bol
  /-- The pattern `$`: the end of the text. -/
  | eol
  /-- The empty pattern. -/
  | empty
  | chr (c : Cls)
  /-- The greedy `c*` for a one-character pattern `c`. -/
  | star (c : Cls)
  | seq (a b : Re)
  /-- The greedy `a?`. -/
  | opt (a : Re)
  /-- The capturing group number `i`. -/
  | group (i : Nat) (a : Re)
deriving Repr

/-- A position of the search: the number of characters before it, the text from
it on, and the groups captured so far, the latest first. -/
structure MState where
  pos : Nat
  rest : List Char
  caps : List (Nat × List Char)
deriving DecidableEq, Repr

/-- The ways `c*` matches at a position, the longest first. -/
def starRun (c : Cls) (caps : List (Nat × List Char)) : Nat → List Char → List MState
  | pos, [] => [{ pos := pos, rest := [], caps := caps }]
  | pos, r :: rs =>
    if c.test r then starRun c caps (pos + 1) rs ++ [{ pos := pos, rest := r :: rs, caps := caps }]
    else [{ pos := pos, rest := r :: rs, caps := caps }]

/-- All the ways the pattern matches at a position, in the order in which a
backtracking search finds them. -/
def Re.run : Re → MState → List MState
  | .bol, s => if s.pos = 0 then [s] else []
  | .eol, s => if s.rest = [] then [s] else []
  | .empty, s => [s]
  | .chr c, s =>
    match s.rest with
    | [] => []
    | r :: rs => if c.test r then [{ s with pos := s.pos + 1, rest := rs }] else []
  | .star c, s => starRun c s.caps s.pos s.rest
  | .seq a b, s => (a.run s).flatMap fun s1 => b.run s1
  | .opt a, s => a.run s ++ [s]
  | .group i a, s =>
    (a.run s).map fun s1 => { s1 with caps := (i, s.rest.take (s1.pos - s.pos)) :: s1.caps }

/-- The leftmost-first match in the text from position `pos` on: the text
matched and the final position of the search. -/
def Re.search (re : Re) : Nat → List Char → Option (List Char × MState)
  | pos, [] =>
    match re.run { pos := pos, rest := [], caps := [] } with
    | s :: _ => some ([], s)
    | [] => none
  | pos, c :: cs =>
    match re.run { pos := pos, rest := c :: cs, caps := [] } with
    | s :: _ => some ((c :: cs).take (s.pos - pos), s)
    | [] => re.search (pos + 1) cs

/-- The text of group `i`, empty when the group took no part in the match. -/
def capture (caps : List (Nat × List Char)) (i : Nat) : List Char :=
  (caps.lookup i).getD []

/-- The method `FindStringSubmatch` for a pattern with `n` groups: the text
matched and the texts of the groups `1..n`, or the empty (`nil`) slice. -/
def FindStringSubmatch (re : Re) (n : Nat) (text : List Char) : List (List Char) :=
  match re.search 0 text with
  | none => []
  | some (m, s) => m :: (List.range n).map fun i => capture s.caps (i + 1)

/-- The method `FindString`: the text matched, or the empty string. -/
def FindString (re : Re) (text : List Char) : List Char :=
  match re.search 0 text with
  | none => []
  | some (m, _) => m

/-- The characters that `regexp.QuoteMeta` escapes. -/
def metaChars : List Char := "\\.+*?()|[]\x7b\x7d^$".data

/-- The strings that stand for themselves in a pattern. -/
def isLiteral (s : List Char) : Bool := s.all fun c => !(metaChars.contains c)

/-- The literal strings of ASCII characters. -/
def isLiteralASCII (s : List Char) : Bool := isLiteral s && s.all fun c => c.toNat < 128

/-- The patterns of a list one after the other. -/
def cat : List Re → Re
  | [] => .empty
  | a :: l => .seq a (cat l)

/-- The pattern of a string, character by character. -/
def lits (f : Char → Cls) (s : List Char) : Re := cat (s.map fun c => .chr (f c))

/-- The pattern `^@?NAME:?(.*)` for a literal name. -/
def mentionPattern (name : List Char) : Re :=
  cat [.bol, .opt (.chr (.lit (Char.ofNat 64))), lits .lit name,
    .opt (.chr (.lit (Char.ofNat 58))), .group 1 (.star .dot)]

/-- The pattern `((?i)PREFIX)-[0-9]+` for a literal prefix. -/
def issuePattern (pfx : List Char) : Re :=
  cat [.group 1 (lits .fold pfx), .chr (.lit (Char.ofNat 45)), .chr .digit, .star .digit]

/-- The part `((?i)PREFIX-)?[0-9]+` of the resolve pattern, inside group 1. -/
def keyPattern (pfx : List Char) : Re :=
  cat [.opt (.group 2 (cat [lits .fold pfx, .chr (.fold (Char.ofNat 45))])), .chr .digit,
    .star .digit]

/-- The pattern `^resolve (((?i)PREFIX-)?[0-9]+)(.*)$` for a literal prefix. -/
def resolvePattern (pfx : List Char) : Re :=
  cat [.bol, lits .lit "resolve ".data, .group 1 (keyPattern pfx), .group 3 (.star .dot), .eol]

/-- The value of `mentionRegexp` for the bot name `name`. -/
def mentionRegexp (name : List Char) : Option Re :=
  if isLiteral name then some (mentionPattern name) else none

/-- The value of `issueRegexp` for the project prefix `pfx`. -/
def issueRegexp (pfx : List Char) : Option Re :=
  if isLiteralASCII pfx then some (issuePattern pfx) else none

/-- The value of `resolveRegexp` for the project prefix `pfx`. -/
def resolveRegexp (pfx : List Char) : Option Re :=
  if isLiteralASCII pfx then some (resolvePattern pfx) else none

/-- The pattern `^sprint(.*)$`. -/
def sprintRexep : Re :=
  cat [.bol, lits .lit "sprint".data, .group 1 (.star .dot), .eol]

/-! ## Package `main` (main.go) -/

/-- The type `SlackJIRABot`: the session, the address of the tracker (the field
`URL` of the embedded `jira.JIRA`) and the two settings. -/
structure SlackJIRABot where
  Session : Session
  URL : String
  JIRAAgileBoard : String
  JIRAProjectPrefix : String
deriving DecidableEq, Repr

/-- The type `slack.Attachment`, with the fields that the program fills. -/
structure Attachment where
  Title : String
  TitleLink : String
deriving DecidableEq, Repr

/-- A call `PostMessage(channel, username, text, attachments)`. -/
structure PostMessageCall where
  Channel : String
  Username : String
  Text : String
  Attachments : List Attachment
deriving DecidableEq, Repr

/-- The collaborators of `PostCurrentSprint`, each given by its results: the
number is the count of earlier calls of the same method. -/
structure Backend (ε : Type) where
  GetSprintsOfBoard : String → Except ε (List Sprint)
  GetIssuesOfSprint : Nat → String → Int → Except ε (List Issue)
  PostMessage : Nat → PostMessageCall → Option ε

/-- The closure `componentIsInFilter` of `PostCurrentSprint`. -/
def componentIsInFilter (L : Lib) (filterComponents : List String) (component : String) :
    Bool :=
  if filterComponents.length = 0 then true
  else filterComponents.any fun c => ToLower L c.data = ToLower L component.data

/-- The statement `m[key] = append(m[key], i)` on a map kept as the list of its
entries. -/
def mapAppend (key : String) (i : Issue) :
    List (String × List Issue) → List (String × List Issue)
  | [] => [(key, [i])]
  | (k, v) :: rest =>
    if k = key then (k, v ++ [i]) :: rest else (k, v) :: mapAppend key i rest

/-- The body of the loop `for _, i := range issues`. -/
def addIssue (L : Lib) (filterComponents : List String)
    (issuesByComponent : List (String × List Issue)) (i : Issue) :
    List (String × List Issue) :=
  if i.Fields.Status.Category.Name = "Done" then issuesByComponent
  else
    i.Fields.Components.foldl
      (fun m c => if componentIsInFilter L filterComponents c.Name then mapAppend c.Name i m else m)
      issuesByComponent

/-- The map `issuesByComponent` after the loop over the issues of a sprint. -/
def groupIssues (L : Lib) (filterComponents : List String) (issues : List Issue) :
    List (String × List Issue) :=
  issues.foldl (addIssue L filterComponents) []

/-- The attachment that `PostCurrentSprint` makes of an issue. -/
def attachmentOf (s : SlackJIRABot) (i : Issue) : Attachment :=
  { Title := i.Key ++ ": " ++ i.Fields.Summary, TitleLink := s.URL ++ "browse/" ++ i.Key }

/-- What `PostCurrentSprint` has done when it returns: the calls of
`PostMessage`, in order, and the error returned (`none` for `nil`). -/
structure Posted (ε : Type) where
  posts : List PostMessageCall
  err : Option ε

/-- The loop `for component, issues := range issuesByComponent`, over the
entries in the order in which the range visits them. -/
def postGroups {ε : Type} (B : Backend ε) (s : SlackJIRABot) (channel : String) :
    List (String × List Issue) → List PostMessageCall → Posted ε
  | [], posts => { posts := posts, err := none }
  | (component, issues) :: rest, posts =>
    let call : PostMessageCall :=
      { Channel := channel, Username := s.Session.Self.Name, Text := component,
        Attachments := issues.map (attachmentOf s) }
    match B.PostMessage posts.length call with
    | some e => { posts := posts ++ [call], err := some e }
    | none => postGroups B s channel rest (posts ++ [call])

/-- The loop `for _, sprint := range sprints`; `k` counts the calls of
`GetIssuesOfSprint` made so far and `order` is the order in which Go ranges over
a map. -/
def sprintLoop {ε : Type} (L : Lib) (B : Backend ε) (s : SlackJIRABot)
    (order : List (String × List Issue) → List (String × List Issue))
    (channel : String) (filterComponents : List String) :
    List Sprint → Nat → List PostMessageCall → Posted ε
  | [], _, posts => { posts := posts, err := none }
  | sprint :: rest, k, posts =>
    if sprint.State = SprintStateActive then
      match B.GetIssuesOfSprint k s.JIRAAgileBoard sprint.ID with
      | .error e => { posts := posts, err := some e }
      | .ok issues =>
        let r := postGroups B s channel (order (groupIssues L filterComponents issues)) posts
        match r.err with
        | some e => { posts := r.posts, err := some e }
        | none => sprintLoop L B s order channel filterComponents rest (k + 1) r.posts
    else sprintLoop L B s order channel filterComponents rest k posts

def SlackJIRABot.PostCurrentSprint {ε : Type} (L : Lib) (B : Backend ε) (s : SlackJIRABot)
    (order : List (String × List Issue) → List (String × List Issue))
    (channel : String) (filterComponents : List String) : Posted ε :=
  match B.GetSprintsOfBoard s.JIRAAgileBoard with
  | .error e => { posts := [], err := some e }
  | .ok sprints => sprintLoop L B s order channel filterComponents sprints 0 []

/-- The calls that `HandleMessage` makes on the bot. -/
inductive Call where
  | ResolveIssue (issueKey comment : String)
  | PostCurrentSprint (channel : String) (filterComponents : List String)
  | PostIssue (channel issueKey : String)
deriving DecidableEq, Repr

/-- What `HandleMessage` has done when it returns: the calls made and the error
returned (`none` for `nil`). -/
structure Handled (ε : Type) where
  calls : List Call
  err : Option ε

/-- The last statement of `HandleMessage`: the search for an issue key. -/
def scanIssueKey {ε : Type} (L : Lib) (exec : Call → Option ε) (m : MessageMessage)
    (issueRe : Re) (t : List Char) : Handled ε :=
  let issueKey := FindString issueRe t
  if issueKey ≠ [] then
    let call := Call.PostIssue m.Channel (String.mk (ToUpper L issueKey))
    { calls := [call], err := exec call }
  else { calls := [], err := none }

/-- The body of `HandleMessage` once its patterns are compiled; `exec c` is the
error that the call `c` returns. -/
def handle {ε : Type} (L : Lib) (s : SlackJIRABot) (exec : Call → Option ε)
    (m : MessageMessage) (mentionRe issueRe resolveRe : Re) : Handled ε :=
  let t := TrimSpace m.Text.data
  let submatches := FindStringSubmatch mentionRe 1 t
  if submatches.length > 1 then
    let c := TrimSpace (submatches.getD 1 [])
    let commandSubmatches := FindStringSubmatch resolveRe 3 c
    if commandSubmatches.length = 4 then
      let key := ToUpper L (TrimSpace (commandSubmatches.getD 1 []))
      let comment := TrimSpace (commandSubmatches.getD 3 [])
      let key :=
        if commandSubmatches.getD 2 [] = [] then s.JIRAProjectPrefix.data ++ "-".data ++ key
        else key
      let call := Call.ResolveIssue (String.mk key) (String.mk comment)
      { calls := [call], err := exec call }
    else
      let commandSubmatches := FindStringSubmatch sprintRexep 1 c
      if commandSubmatches.length > 0 then
        let arguments := TrimSpace (commandSubmatches.getD 1 [])
        let filterComponents := if arguments.length > 0 then Split (Char.ofNat 44) arguments else []
        let filterComponents := filterComponents.map TrimSpace
        let call := Call.PostCurrentSprint m.Channel (filterComponents.map String.mk)
        { calls := [call], err := exec call }
      else scanIssueKey L exec m issueRe t
  else scanIssueKey L exec m issueRe t

/-- The method `HandleMessage`; `none` when the bot name or the project prefix
holds a character that `regexp.QuoteMeta` would escape (or, for the prefix, a
character outside ASCII), where the patterns are not the ones modelled. -/
def SlackJIRABot.HandleMessage {ε : Type} (L : Lib) (s : SlackJIRABot)
    (exec : Call → Option ε) (m : MessageMessage) : Option (Handled ε) :=
  match mentionRegexp s.Session.Self.Name.data, issueRegexp s.JIRAProjectPrefix.data,
      resolveRegexp s.JIRAProjectPrefix.data with
  | some mentionRe, some issueRe, some resolveRe =>
    some (handle L s exec m mentionRe issueRe resolveRe)
  | _, _, _ => none

/-! ## Notions used in the statements -/

/-- The first request of `TransitionIssue`. -/
def transitionsGET {β : Type} (j : JIRA β) (issueKey : String) : Request :=
  withAuth j
    { Method := "GET", URL := transitionsURL j issueKey, StartAt := none, ContentType := none,
      Body := none, BasicAuth := none }

/-- The method of a request and the transition id in its body. -/
def methodAndID (r : Request) : String × Option String :=
  (r.Method, r.Body.map fun b => b.ID)

/-- The page that the request number `k` of a call received, when the answer
had status 200 and a body that decodes. -/
def pageAt {β α : Type} (j : JIRA β) (decode : β → Except String (Paginated α)) (k : Nat)
    (req : Request) : Option (Paginated α) :=
  match j.Do k req with
  | .error _ => none
  | .ok resp =>
    if resp.StatusCode = 200 then
      match decode resp.Body with
      | .error _ => none
      | .ok page => some page
    else none

/-- The pages received by the requests `reqs`, the first of which is the
request number `k` of the call. -/
def pagesFrom {β α : Type} (j : JIRA β) (decode : β → Except String (Paginated α)) :
    Nat → List Request → List (Paginated α)
  | _, [] => []
  | k, r :: rs => (pageAt j decode k r).toList ++ pagesFrom j decode (k + 1) rs

/-- The items of the pages received by a call that sent the requests `reqs`, one
page after the other. -/
def itemsFetched {β α : Type} (j : JIRA β) (decode : β → Except String (Paginated α))
    (reqs : List Request) : List α :=
  ((pagesFrom j decode 0 reqs).map fun p => p.Values).flatten

/-- The rule by which a fetch that sent the requests `reqs` (the first of them
the request number `k0` of the call) and has the outcome `outcome` after at most
`fuel` iterations went from page to page: a page received was the last one, and
the fetch returned a list after it, exactly when the number of its items
differs from its `maxResults`; after a page with as many items as its
`maxResults` the next request, if the bound on the iterations leaves room for
one, asks for the offset advanced by that `maxResults`. -/
def PageRule {β α : Type} (j : JIRA β) (decode : β → Except String (Paginated α))
    (fuel k0 : Nat) (reqs : List Request) (outcome : Option (Except (Error β) (List α))) :
    Prop :=
  ∀ (i : Nat) (r : Request) (p : Paginated α), reqs[i]? = some r →
    pageAt j decode (k0 + i) r = some p →
    (((p.Values.length : Int) ≠ p.MaxResults) ↔
      (i + 1 = reqs.length ∧ ∃ items, outcome = some (.ok items))) ∧
    ((p.Values.length : Int) = p.MaxResults → i + 1 < fuel →
      ∃ r2, reqs[i + 1]? = some r2 ∧ r2.StartAt = r.StartAt.map fun a => a + p.MaxResults)

/-! ## Sample data -/

def sampleLib : Lib := { urlOK := fun _ => true, upperRune := id, lowerRune := id }

def sampleSprint (n : Int) (state : String) : Sprint :=
  { ID := n, State := state, Name := "Sprint", StartDate := "", EndDate := "" }

def sampleIssue (key component category : String) : Issue :=
  { Key := key,
    Fields :=
      { Summary := "summary", Description := "", Reporter := ⟨"r", "R"⟩,
        IssueType := ⟨"1", "Bug"⟩, FixVersions := [], Assignee := none,
        Components := [⟨"10", component⟩],
        Status := ⟨"3", "status", ⟨2, category, "green"⟩⟩ } }

def sampleSprints : List Sprint :=
  [sampleSprint 1 "closed", sampleSprint 2 "active", sampleSprint 3 "future"]

def sampleIssues : List Issue :=
  [sampleIssue "PROJ-1" "backend" "Done", sampleIssue "PROJ-2" "backend" "To Do",
   sampleIssue "PROJ-3" "infra" "In Progress", sampleIssue "PROJ-4" "infra" "Done"]

/-- The page of size `P` at offset `n` of a list. -/
def pageOf {α : Type} (items : List α) (P : Nat) (n : Int) : Paginated α :=
  { MaxResults := P, StartAt := n, Values := (items.drop n.toNat).take P }

/-- A tracker that serves `sprints` and `issues` in pages of size `P`; the body
of an answer holds the page of either list. -/
def pagedJIRA (sprints : List Sprint) (issues : List Issue) (P : Nat) :
    JIRA (PaginatedSprints × PaginatedIssues) :=
  { Do := fun _ req =>
      .ok { StatusCode := 200, Status := "200 OK",
            Body := (pageOf sprints P (req.StartAt.getD 0), pageOf issues P (req.StartAt.getD 0)) },
    URL := "https://jira.example/", Username := "bot", Password := "secret" }

/-- A tracker that answers every request with the same page. -/
def constJIRA {α : Type} (page : Paginated α) : JIRA (Paginated α) :=
  { Do := fun _ _ => .ok { StatusCode := 200, Status := "200 OK", Body := page },
    URL := "https://jira.example/", Username := "bot", Password := "secret" }

def sampleTransition (id name dest : String) : Transition :=
  { ID := id, Name := name, To := ⟨"5", dest, ⟨3, "Done", "green"⟩⟩ }

/-- A tracker that answers the `GET` of the transitions with the list `ts` and
the `POST` with status 204. -/
def transitionJIRA (ts : List Transition) : JIRA GetTransitionsResponse :=
  { Do := fun _ req =>
      if req.Method = "GET" then .ok { StatusCode := 200, Status := "200 OK", Body := ⟨ts⟩ }
      else .ok { StatusCode := 204, Status := "204 No Content", Body := ⟨[]⟩ },
    URL := "https://jira.example/", Username := "bot", Password := "secret" }

def sampleSession : Session :=
  { Self := ⟨"U0", "bot"⟩, Users := [], Conn := "wss://slack.example/ws", OutgoingID := 1 }

def sampleStart : startRTMResponse :=
  { Self := ⟨"U0", "bot"⟩, Users := [], OK := true, ErrorCode := "",
    URL := "wss://slack.example/ws" }

/-- A connection on which the first write fails and the later ones succeed. -/
def failFirst (k : Nat) (_ : outgoingMessage) : Option String :=
  if k = 0 then some "broken pipe" else none

def sampleBot : SlackJIRABot :=
  { Session := sampleSession, URL := "https://jira.example/", JIRAAgileBoard := "7",
    JIRAProjectPrefix := "PROJ" }

def sampleMessage (text : String) : MessageMessage :=
  { Channel := "C1", User := "U1", Text := text, Timestamp := "0" }

/-- Collaborators that never fail: one board with `sampleSprints`, each sprint
with `sampleIssues`. -/
def sampleBackend : Backend String :=
  { GetSprintsOfBoard := fun _ => .ok sampleSprints,
    GetIssuesOfSprint := fun _ _ _ => .ok sampleIssues,
    PostMessage := fun _ _ => none }

/-! ## Notions used in the proofs about patterns -/

/-- The rest of the text after a string of one-character patterns, when the
beginning of the text matches them one by one. -/
def matchLits (f : Char → Cls) : List Char → List Char → Option (List Char)
  | [], rest => some rest
  | _ :: _, [] => none
  | c :: cs, r :: rs => if (f c).test r then matchLits f cs rs else none

/-- The text is free of line feeds. -/
def oneLine (s : List Char) : Prop := ∀ c ∈ s, c.toNat ≠ 10

/-- The beginning of a text up to its first line feed. -/
def firstLine (s : List Char) : List Char := s.takeWhile fun c => c.toNat ≠ 10

/-- A string of decimal digits. -/
def isDigits (s : List Char) : Prop := ∀ c ∈ s, Cls.digit.test c = true

/-- The string `pre` is `pfx` with some ASCII letters in the other case. -/
def sameUpToCase (pfx pre : List Char) : Prop :=
  List.Forall₂ (fun c r => r = c ∨ r = swapCase c) pfx pre

/-- The text after an optional colon at its beginning. -/
def afterColon : List Char → List Char
  | [] => []
  | c :: r => if c = Char.ofNat 58 then r else c :: r

/-- The text after the bot name, with or without an `@` before the name, when
the text begins so; the reading with the `@` is preferred. -/
def afterName (name t : List Char) : Option (List Char) :=
  match t with
  | [] => matchLits .lit name []
  | c :: t2 =>
    if c = Char.ofNat 64 then
      match matchLits .lit name t2 with
      | some r => some r
      | none => matchLits .lit name (c :: t2)
    else matchLits .lit name (c :: t2)

/-! ## Notions used in the statements about mentions -/

/-- The text starts with the bot name, with or without an `@` before it. -/
def startsWithName (name t : List Char) : Prop :=
  ∃ rest, t = name ++ rest ∨ t = Char.ofNat 64 :: (name ++ rest)

/-- The text is the bot name, with or without an `@` before it and a `:` after
it, followed by `rest`. -/
def isMentionOf (name t rest : List Char) : Prop :=
  ∃ lead colon, t = lead ++ name ++ colon ++ rest ∧
    (lead = [] ∨ lead = [Char.ofNat 64]) ∧ (colon = [] ∨ colon = [Char.ofNat 58])

/-- The value of `filterComponents` that `HandleMessage` computes from the text
after the word `sprint`. -/
def sprintFilters (args : List Char) : List String :=
  ((if (TrimSpace args).length > 0 then Split (Char.ofNat 44) (TrimSpace args)
    else []).map TrimSpace).map String.mk

/-- The call is one of the two commands of a mention. -/
def isCommand (c : Call) : Prop :=
  (∃ key cm, c = .ResolveIssue key cm) ∨ (∃ ch f, c = .PostCurrentSprint ch f)

/-! ## Theorems -/

/-! ### Paged fetch -/

theorem take_append_take_drop {α : Type} (l : List α) (n P : Nat) :
    l.take n ++ (l.drop n).take P = l.take (n + P) := by
  rw [List.take_add]

theorem fetchLoop_serves {β α : Type} (L : Lib) (j : JIRA β)
    (decode : β → Except String (Paginated α)) (url : String) (items : List α) (P : Nat)
    (hP : 1 ≤ P) (hurl : L.urlOK url = true) (hs : ServesPages j decode items P) :
    ∀ (fuel n : Nat) (log : List Request), (items.length - n) / P < fuel →
      (fetchLoop L j decode url fuel (n : Int) (items.take n) log).outcome =
        some (.ok items) := by
  intro fuel
  induction fuel with
  | zero => intro n log h; exact absurd h (Nat.not_lt_zero _)
  | succ fuel ih =>
    intro n log h
    obtain ⟨resp, page, hdo, hcode, hdec, hmax, hvals⟩ :=
      hs log.length (withAuth j ⟨"GET", url, some (n : Int), none, none, none⟩) n rfl
    have hlen : page.Values.length = min P (items.length - n) := by
      rw [hvals, List.length_take, List.length_drop]
    simp only [fetchLoop, NewRequest, hurl, if_true, JIRA.DoWithAuth, hdo, hcode, ne_eq,
      not_true_eq_false, if_false, hdec, hmax]
    by_cases hc : P ≤ items.length - n
    · have hl : page.Values.length = P := by rw [hlen]; exact Nat.min_eq_left hc
      have h1 : ((page.Values.length : Nat) : Int) = (P : Int) := by rw [hl]
      rw [if_pos h1]
      have h2 : (n : Int) + (P : Int) = ((n + P : Nat) : Int) := by push_cast; rfl
      rw [h2, hvals, take_append_take_drop]
      apply ih
      have h3 : items.length - n = (items.length - (n + P)) + P := by omega
      rw [h3, Nat.add_div_right _ (by omega)] at h
      omega
    · have hl : page.Values.length = items.length - n := by
        rw [hlen]; exact Nat.min_eq_right (by omega)
      have h1 : ¬ ((page.Values.length : Nat) : Int) = (P : Int) := by
        rw [hl]; intro h'; have := Int.ofNat.inj h'; omega
      rw [if_neg h1]
      have h4 : (items.drop n).take P = items.drop n := by
        apply List.take_of_length_le; rw [List.length_drop]; omega
      simp only [hvals, h4, List.take_append_drop]

/-- C1. Pagination completeness: against a tracker that answers every request
for offset `n` with status 200, `maxResults = P` and the items at positions
`[n, n + P)` of a list of `N` items, with `P ≥ 1`, `GetSprintsOfBoard` and
`GetIssuesOfSprint` return (after at most `N / P + 1` requests) exactly the
`N` items in their order, whether or not `P` divides `N`. -/
theorem C1_pagination_completeness {β : Type} (L : Lib) (j : JIRA β)
    (decodeS : β → Except String PaginatedSprints)
    (decodeI : β → Except String PaginatedIssues)
    (boardID : String) (sprintID : Int) (sprints : List Sprint) (issues : List Issue)
    (P fuel : Nat) (hP : 1 ≤ P)
    (hurlS : L.urlOK (sprintsURL j boardID) = true)
    (hurlI : L.urlOK (issuesURL j boardID sprintID) = true)
    (hS : ServesPages j decodeS sprints P) (hI : ServesPages j decodeI issues P) :
    (sprints.length / P < fuel →
      (j.GetSprintsOfBoard L decodeS fuel boardID).outcome = some (.ok sprints)) ∧
    (issues.length / P < fuel →
      (j.GetIssuesOfSprint L decodeI fuel boardID sprintID).outcome = some (.ok issues)) := by
  constructor
  · intro h
    have := fetchLoop_serves L j decodeS (sprintsURL j boardID) sprints P hP hurlS hS fuel 0 []
      (by simpa using h)
    simpa [JIRA.GetSprintsOfBoard] using this
  · intro h
    have := fetchLoop_serves L j decodeI (issuesURL j boardID sprintID) issues P hP hurlI hI
      fuel 0 [] (by simpa using h)
    simpa [JIRA.GetIssuesOfSprint] using this

theorem pagedJIRA_servesSprints (sprints : List Sprint) (issues : List Issue) (P : Nat) :
    ServesPages (pagedJIRA sprints issues P) (fun b => .ok b.1) sprints P := by
  intro k req n hn
  exact ⟨_, _, rfl, rfl, rfl, rfl, by simp [pageOf, hn]⟩

theorem pagedJIRA_servesIssues (sprints : List Sprint) (issues : List Issue) (P : Nat) :
    ServesPages (pagedJIRA sprints issues P) (fun b => .ok b.2) issues P := by
  intro k req n hn
  exact ⟨_, _, rfl, rfl, rfl, rfl, by simp [pageOf, hn]⟩

/-- Witness of C1: three sprints and four issues served in pages of two. -/
theorem C1_pagination_completeness_witness :
    ((pagedJIRA sampleSprints sampleIssues 2).GetSprintsOfBoard sampleLib
        (fun b => .ok b.1) 3 "7").outcome = some (.ok sampleSprints) ∧
    ((pagedJIRA sampleSprints sampleIssues 2).GetIssuesOfSprint sampleLib
        (fun b => .ok b.2) 3 "7" 2).outcome = some (.ok sampleIssues) :=
  have h := C1_pagination_completeness sampleLib (pagedJIRA sampleSprints sampleIssues 2)
    (fun b => .ok b.1) (fun b => .ok b.2) "7" 2 sampleSprints sampleIssues 2 3 (by decide)
    rfl rfl (pagedJIRA_servesSprints _ _ _) (pagedJIRA_servesIssues _ _ _)
  ⟨h.1 (by decide), h.2 (by decide)⟩

/-! ### Transitions -/

theorem scanTransitions_first (status : String) (pre post : List Transition) (t : Transition)
    (hpre : ∀ u ∈ pre, u.To.Name ≠ status) (ht : t.To.Name = status) :
    scanTransitions status (pre ++ t :: post) = some t := by
  induction pre with
  | nil => simp [scanTransitions, ht]
  | cons u pre ih =>
    have hu : u.To.Name ≠ status := hpre u (List.mem_cons_self _ _)
    simp only [List.cons_append, scanTransitions, hu, if_false]
    exact ih fun v hv => hpre v (List.mem_cons_of_mem _ hv)

theorem scanTransitions_none (status : String) (ts : List Transition)
    (h : ∀ u ∈ ts, u.To.Name ≠ status) : scanTransitions status ts = none := by
  induction ts with
  | nil => rfl
  | cons u ts ih =>
    have hu : u.To.Name ≠ status := h u (List.mem_cons_self _ _)
    simp only [scanTransitions, hu, if_false]
    exact ih fun v hv => h v (List.mem_cons_of_mem _ hv)

/-- C2. Transition matching is exact and first-match: when the `GET` returns a
transition list in which `t` is the first transition whose `To.Name` equals the
target status (string equality), `TransitionIssue` sends exactly two requests,
the `GET` and a `POST` whose body carries the id of `t`. -/
theorem C2_first_match {β : Type} (L : Lib) (j : JIRA β)
    (decode : β → Except String GetTransitionsResponse) (issueKey comment status : String)
    (resp : Response β) (pre post : List Transition) (t : Transition)
    (hurl : L.urlOK (transitionsURL j issueKey) = true)
    (hget : j.Do 0 (transitionsGET j issueKey) = .ok resp) (hcode : resp.StatusCode = 200)
    (hdec : decode resp.Body = .ok ⟨pre ++ t :: post⟩)
    (hpre : ∀ u ∈ pre, u.To.Name ≠ status) (ht : t.To.Name = status) :
    (j.TransitionIssue L decode issueKey comment status).requests.map methodAndID =
      [("GET", none), ("POST", some t.ID)] := by
  have hs := scanTransitions_first status pre post t hpre ht
  have hget2 : j.Do 0 (withAuth j ⟨"GET", transitionsURL j issueKey, none, none, none, none⟩)
      = .ok resp := hget
  simp only [JIRA.TransitionIssue, NewRequest, hurl, if_true, JIRA.DoWithAuth, hget2, hcode,
    ne_eq, not_true_eq_false, if_false, hdec, hs]
  cases hp : j.Do 1 (withAuth j ⟨"POST", transitionsURL j issueKey, none,
      some "application/json", some (mkDoTransitionRequest t comment), none⟩) with
  | error e => simp [methodAndID, withAuth, mkDoTransitionRequest]
  | ok r2 =>
    by_cases h204 : r2.StatusCode = 204 <;>
      simp [h204, methodAndID, withAuth, mkDoTransitionRequest]

/-- Witness of C2: the first transition leads to `resolved`, which differs from
the target in letter case only, and the next two lead to `Resolved`; the id of
the first of these two is sent. -/
theorem C2_first_match_witness :
    ((transitionJIRA [sampleTransition "11" "Reopen" "resolved",
        sampleTransition "21" "Resolve" "Resolved",
        sampleTransition "31" "Close" "Resolved"]).TransitionIssue sampleLib Except.ok
        "PROJ-42" "fixed typo" "Resolved").requests.map methodAndID =
      [("GET", none), ("POST", some "21")] :=
  C2_first_match sampleLib (transitionJIRA _) Except.ok "PROJ-42" "fixed typo" "Resolved"
    { StatusCode := 200, Status := "200 OK", Body := ⟨_⟩ }
    [sampleTransition "11" "Reopen" "resolved"] [sampleTransition "31" "Close" "Resolved"]
    (sampleTransition "21" "Resolve" "Resolved") rfl rfl rfl rfl (by decide) rfl

/-- C3. Transition absence: when the `GET` returns a transition list (possibly
empty) in which no transition has `To.Name` equal to the target status,
`TransitionIssue` returns the error "No transition for issue KEY to status
STATUS", and the `GET` is the only request it makes: no `POST` is sent. -/
theorem C3_transition_absence {β : Type} (L : Lib) (j : JIRA β)
    (decode : β → Except String GetTransitionsResponse) (issueKey comment status : String)
    (resp : Response β) (ts : List Transition)
    (hurl : L.urlOK (transitionsURL j issueKey) = true)
    (hget : j.Do 0 (transitionsGET j issueKey) = .ok resp) (hcode : resp.StatusCode = 200)
    (hdec : decode resp.Body = .ok ⟨ts⟩)
    (hno : ∀ u ∈ ts, u.To.Name ≠ status) :
    (j.TransitionIssue L decode issueKey comment status).outcome =
        some (.error (.errorf
          ("No transition for issue " ++ issueKey ++ " to status " ++ status))) ∧
      (j.TransitionIssue L decode issueKey comment status).requests =
        [transitionsGET j issueKey] ∧
      ∀ r ∈ (j.TransitionIssue L decode issueKey comment status).requests,
        r.Method ≠ "POST" := by
  have hs := scanTransitions_none status ts hno
  have hget2 : j.Do 0 (withAuth j ⟨"GET", transitionsURL j issueKey, none, none, none, none⟩)
      = .ok resp := hget
  simp only [JIRA.TransitionIssue, NewRequest, hurl, if_true, JIRA.DoWithAuth, hget2, hcode,
    ne_eq, not_true_eq_false, if_false, hdec, hs]
  refine ⟨rfl, rfl, ?_⟩
  intro r hr
  rw [List.mem_singleton] at hr
  subst hr
  simp [withAuth]

/-- Witness of C3: no transition of the list leads to `Resolved`. -/
theorem C3_transition_absence_witness :
    ((transitionJIRA [sampleTransition "11" "Start" "In Progress"]).TransitionIssue sampleLib
        Except.ok "PROJ-42" "" "Resolved").outcome =
        some (.error (.errorf
          ("No transition for issue " ++ "PROJ-42" ++ " to status " ++ "Resolved"))) ∧
      ((transitionJIRA [sampleTransition "11" "Start" "In Progress"]).TransitionIssue sampleLib
        Except.ok "PROJ-42" "" "Resolved").requests =
        [transitionsGET (transitionJIRA [sampleTransition "11" "Start" "In Progress"])
          "PROJ-42"] ∧
      ∀ r ∈ ((transitionJIRA [sampleTransition "11" "Start" "In Progress"]).TransitionIssue
        sampleLib Except.ok "PROJ-42" "" "Resolved").requests, r.Method ≠ "POST" :=
  C3_transition_absence sampleLib (transitionJIRA _) Except.ok "PROJ-42" "" "Resolved"
    { StatusCode := 200, Status := "200 OK", Body := ⟨_⟩ }
    [sampleTransition "11" "Start" "In Progress"] rfl rfl rfl rfl (by decide)

/-! ### Outbound ids -/

theorem wrapInt_succ (c : Int) (h0 : 0 ≤ c) (h1 : c + 1 < 2 ^ 63) : wrapInt (c + 1) = c + 1 := by
  unfold wrapInt
  have h : (c + 1 + 2 ^ 63) % 2 ^ 64 = c + 1 + 2 ^ 63 :=
    Int.emod_eq_of_lt (by omega) (by omega)
  rw [h]; omega

theorem sendAll_ids (send : Nat → outgoingMessage → Option String) :
    ∀ (calls : List (String × String)) (k : Nat) (s : Session), 0 ≤ s.OutgoingID →
      s.OutgoingID + calls.length < 2 ^ 63 →
      ∀ (i : Nat) (r : Sent), (sendAll send k s calls)[i]? = some r →
        r.frame.ID = s.OutgoingID + ((written ((sendAll send k s calls).take i)).length : Int) := by
  intro calls
  induction calls with
  | nil => intro k s _ _ i r h; simp [sendAll] at h
  | cons c calls ih =>
    intro k s h0 h1 i r h
    obtain ⟨channel, text⟩ := c
    simp only [List.length_cons, Nat.cast_add, Nat.cast_one] at h1
    cases i with
    | zero =>
      simp only [sendAll, List.getElem?_cons_zero, Option.some.injEq] at h
      subst h
      simp only [List.take_zero, written, List.filter_nil, List.length_nil, Nat.cast_zero,
        add_zero, Session.SendMessage]
      cases send k _ <;> rfl
    | succ i =>
      simp only [sendAll, List.getElem?_cons_succ] at h
      simp only [sendAll, List.take_succ_cons, written, List.filter_cons]
      cases hs : send k ⟨s.OutgoingID, "message", channel, text⟩ with
      | some e =>
        have hsess : (s.SendMessage (send k) channel text) =
            ⟨⟨s.OutgoingID, "message", channel, text⟩, some (.send e), s⟩ := by
          simp only [Session.SendMessage, hs]
        rw [hsess] at h ⊢
        have := ih (k + 1) s h0 (by omega) i r h
        simpa [written] using this
      | none =>
        have hsess : (s.SendMessage (send k) channel text) =
            ⟨⟨s.OutgoingID, "message", channel, text⟩, none,
              { s with OutgoingID := wrapInt (s.OutgoingID + 1) }⟩ := by
          simp only [Session.SendMessage, hs]
        rw [hsess] at h ⊢
        have hw := wrapInt_succ s.OutgoingID h0 (by omega)
        have := ih (k + 1) { s with OutgoingID := wrapInt (s.OutgoingID + 1) }
          (by simp only [hw]; omega) (by simp only [hw]; omega) i r h
        simp only [hw] at this ⊢
        simp only [written, Option.isNone_none, if_true, List.length_cons, Nat.cast_add,
          Nat.cast_one] at this ⊢
        rw [this]; ring

theorem StartSession_id {β : Type} (callAPI : Except String β)
    (decode : β → Except String startRTMResponse) (dial : String → Option String)
    (s : Session) (h : StartSession callAPI decode dial = .ok s) : s.OutgoingID = 1 := by
  unfold StartSession at h
  split at h
  · cases h
  · split at h
    · cases h
    · cases h; rfl

/-- Counterexample to C5: on a session just started, the first write fails and
the second succeeds; both frames carry the id 1, so an id is used for two
frames and the second frame does not carry the id 2. -/
theorem C5_counterexample :
    StartSession (.ok sampleStart) Except.ok (fun _ => none) = .ok sampleSession ∧
      frameIDs (sendAll failFirst 0 sampleSession [("C1", "a"), ("C2", "b")]) = [1, 1] :=
  ⟨rfl, by decide⟩

/-- C5 (amended). For every session created by `StartSession` and every
sequence of fewer than `2^63 - 1` calls of `SendMessage`, each frame carries the
id 1 plus the number of earlier calls whose write succeeded: the ids of the
frames that were written are 1, 2, 3, ... in order, and a frame whose write
failed carries the id that the next frame carries again. -/
theorem C5_outbound_ids {β : Type} (callAPI : Except String β)
    (decode : β → Except String startRTMResponse) (dial : String → Option String)
    (send : Nat → outgoingMessage → Option String) (s : Session)
    (calls : List (String × String))
    (hstart : StartSession callAPI decode dial = .ok s)
    (hlen : (calls.length : Int) + 1 < 2 ^ 63) :
    ∀ (i : Nat) (r : Sent), (sendAll send 0 s calls)[i]? = some r →
      r.frame.ID = 1 + ((written ((sendAll send 0 s calls).take i)).length : Int) := by
  have h1 := StartSession_id callAPI decode dial s hstart
  intro i r h
  have := sendAll_ids send calls 0 s (by omega) (by omega) i r h
  rw [this, h1]

/-- Witness of C5 (amended): the third frame of three calls, the first of which
failed, carries the id 2. -/
theorem C5_outbound_ids_witness :
    ((sendAll failFirst 0 sampleSession [("C1", "a"), ("C2", "b"), ("C1", "c")])[2]?).map
      (fun r => r.frame.ID) = some 2 := by
  have h := C5_outbound_ids (.ok sampleStart) Except.ok (fun _ => none) failFirst sampleSession
    [("C1", "a"), ("C2", "b"), ("C1", "c")] rfl (by decide) 2
  cases hr : (sendAll failFirst 0 sampleSession [("C1", "a"), ("C2", "b"), ("C1", "c")])[2]? with
  | none => exact absurd hr (by decide)
  | some r =>
    have h2 := h r hr
    have h3 : ((written ((sendAll failFirst 0 sampleSession
        [("C1", "a"), ("C2", "b"), ("C1", "c")]).take 2)).length : Int) = 1 := by decide
    rw [h3] at h2
    simp only [Option.map_some', h2]; rfl

/-! ### Sprint summary -/

theorem mapAppend_inv (Q : Issue → Prop) (key : String) (i : Issue) (hi : Q i) :
    ∀ (m : List (String × List Issue)), (∀ e ∈ m, ∀ x ∈ e.2, Q x) →
      ∀ e ∈ mapAppend key i m, ∀ x ∈ e.2, Q x := by
  intro m
  induction m with
  | nil =>
    intro _ e he x hx
    simp only [mapAppend, List.mem_singleton] at he
    subst he
    simp only [List.mem_singleton] at hx
    subst hx; exact hi
  | cons a m ih =>
    intro hm e he x hx
    obtain ⟨k, v⟩ := a
    simp only [mapAppend] at he
    split at he
    · rcases List.mem_cons.1 he with h | h
      · subst h
        rcases List.mem_append.1 hx with h2 | h2
        · exact hm (k, v) (List.mem_cons_self _ _) x h2
        · simp only [List.mem_singleton] at h2
          subst h2; exact hi
      · exact hm e (List.mem_cons_of_mem _ h) x hx
    · rcases List.mem_cons.1 he with h | h
      · subst h
        exact hm (k, v) (List.mem_cons_self _ _) x hx
      · exact ih (fun e2 h2 => hm e2 (List.mem_cons_of_mem _ h2)) e h x hx

theorem foldComponents_inv (Q : Issue → Prop) (f : String → Bool) (i : Issue) (hi : Q i) :
    ∀ (cs : List Component) (m : List (String × List Issue)),
      (∀ e ∈ m, ∀ x ∈ e.2, Q x) →
      ∀ e ∈ cs.foldl (fun m c => if f c.Name then mapAppend c.Name i m else m) m,
        ∀ x ∈ e.2, Q x := by
  intro cs
  induction cs with
  | nil => intro m hm; exact hm
  | cons c cs ih =>
    intro m hm
    simp only [List.foldl_cons]
    apply ih
    split
    · exact mapAppend_inv Q c.Name i hi m hm
    · exact hm

theorem addIssue_inv (L : Lib) (filterComponents : List String) (Q : Issue → Prop) (i : Issue)
    (hi : i.Fields.Status.Category.Name ≠ "Done" → Q i) (m : List (String × List Issue))
    (hm : ∀ e ∈ m, ∀ x ∈ e.2, Q x) :
    ∀ e ∈ addIssue L filterComponents m i, ∀ x ∈ e.2, Q x := by
  unfold addIssue
  split
  · exact hm
  · rename_i h
    exact foldComponents_inv Q _ i (hi h) _ m hm

theorem groupIssues_inv (L : Lib) (filterComponents : List String) (Q : Issue → Prop) :
    ∀ (issues : List Issue) (m : List (String × List Issue)),
      (∀ i ∈ issues, i.Fields.Status.Category.Name ≠ "Done" → Q i) →
      (∀ e ∈ m, ∀ x ∈ e.2, Q x) →
      ∀ e ∈ issues.foldl (addIssue L filterComponents) m, ∀ x ∈ e.2, Q x := by
  intro issues
  induction issues with
  | nil => intro m _ hm; exact hm
  | cons i issues ih =>
    intro m hi hm
    simp only [List.foldl_cons]
    apply ih _ (fun x hx => hi x (List.mem_cons_of_mem _ hx))
    exact addIssue_inv L filterComponents Q i (hi i (List.mem_cons_self _ _)) m hm

theorem postGroups_inv {ε : Type} (B : Backend ε) (s : SlackJIRABot) (channel : String)
    (Q : Issue → Prop) :
    ∀ (groups : List (String × List Issue)) (posts : List PostMessageCall),
      (∀ e ∈ groups, ∀ x ∈ e.2, Q x) →
      (∀ call ∈ posts, ∃ l : List Issue, call.Attachments = l.map (attachmentOf s) ∧
        ∀ x ∈ l, Q x) →
      ∀ call ∈ (postGroups B s channel groups posts).posts,
        ∃ l : List Issue, call.Attachments = l.map (attachmentOf s) ∧ ∀ x ∈ l, Q x := by
  intro groups
  induction groups with
  | nil => intro posts _ hp; exact hp
  | cons g groups ih =>
    intro posts hg hp
    obtain ⟨component, issues⟩ := g
    have hp2 : ∀ call ∈ posts ++ [(⟨channel, s.Session.Self.Name, component,
        issues.map (attachmentOf s)⟩ : PostMessageCall)],
        ∃ l : List Issue, call.Attachments = l.map (attachmentOf s) ∧ ∀ x ∈ l, Q x := by
      intro call hc
      rcases List.mem_append.1 hc with h | h
      · exact hp call h
      · simp only [List.mem_singleton] at h
        subst h
        exact ⟨issues, rfl, hg (component, issues) (List.mem_cons_self _ _)⟩
    simp only [postGroups]
    split
    · exact hp2
    · exact ih _ (fun e he => hg e (List.mem_cons_of_mem _ he)) hp2

theorem sprintLoop_inv {ε : Type} (L : Lib) (B : Backend ε) (s : SlackJIRABot)
    (order : List (String × List Issue) → List (String × List Issue))
    (horder : ∀ m, (order m).Perm m) (channel : String) (filterComponents : List String)
    (Q : Issue → Prop)
    (hQ : ∀ k id all i, B.GetIssuesOfSprint k s.JIRAAgileBoard id = .ok all → i ∈ all →
      i.Fields.Status.Category.Name ≠ "Done" → Q i) :
    ∀ (sprints : List Sprint) (k : Nat) (posts : List PostMessageCall),
      (∀ call ∈ posts, ∃ l : List Issue, call.Attachments = l.map (attachmentOf s) ∧
        ∀ x ∈ l, Q x) →
      ∀ call ∈ (sprintLoop L B s order channel filterComponents sprints k posts).posts,
        ∃ l : List Issue, call.Attachments = l.map (attachmentOf s) ∧ ∀ x ∈ l, Q x := by
  intro sprints
  induction sprints with
  | nil => intro k posts hp; exact hp
  | cons sp sprints ih =>
    intro k posts hp
    simp only [sprintLoop]
    split
    · cases hget : B.GetIssuesOfSprint k s.JIRAAgileBoard sp.ID with
      | error e => exact hp
      | ok issues =>
        have hgroups : ∀ e ∈ order (groupIssues L filterComponents issues), ∀ x ∈ e.2, Q x := by
          intro e he
          have he2 := (horder _).subset he
          exact groupIssues_inv L filterComponents Q issues []
            (fun i hi hd => hQ k sp.ID issues i hget hi hd)
            (fun e he => absurd he (List.not_mem_nil _)) e he2
        have hposts := postGroups_inv B s channel Q _ posts hgroups hp
        simp only []
        split
        · exact hposts
        · exact ih _ _ hposts
    · exact ih _ _ hp

/-- C6. Done-issue exclusion: whatever the sprints, the issues of each active
sprint, the component filter (empty or not) and the order in which the map of
components is ranged over, every attachment of every list that
`PostCurrentSprint` passes to `PostMessage` is rendered from an issue that
`GetIssuesOfSprint` returned and whose `Fields.Status.Category.Name` is not
"Done": no issue of category "Done" is rendered into a summary. -/
theorem C6_done_exclusion {ε : Type} (L : Lib) (B : Backend ε) (s : SlackJIRABot)
    (order : List (String × List Issue) → List (String × List Issue))
    (channel : String) (filterComponents : List String)
    (horder : ∀ m, (order m).Perm m) :
    ∀ call ∈ (s.PostCurrentSprint L B order channel filterComponents).posts,
      ∃ l : List Issue, call.Attachments = l.map (attachmentOf s) ∧
        ∀ i ∈ l, i.Fields.Status.Category.Name ≠ "Done" ∧
          ∃ k id all, B.GetIssuesOfSprint k s.JIRAAgileBoard id = .ok all ∧ i ∈ all := by
  unfold SlackJIRABot.PostCurrentSprint
  cases B.GetSprintsOfBoard s.JIRAAgileBoard with
  | error e => intro call hc; exact absurd hc (List.not_mem_nil _)
  | ok sprints =>
    exact sprintLoop_inv L B s order horder channel filterComponents
      (fun i => i.Fields.Status.Category.Name ≠ "Done" ∧
          ∃ k id all, B.GetIssuesOfSprint k s.JIRAAgileBoard id = .ok all ∧ i ∈ all)
      (fun k id all i hget hi hd => ⟨hd, k, id, all, hget, hi⟩) sprints 0 []
      (fun call hc => absurd hc (List.not_mem_nil _))

/-- Witness of C6: the active sprint holds two issues of category "Done" and two
others; with the map ranged over in reverse order, only the two others are
posted. -/
theorem C6_done_exclusion_witness :
    (sampleBot.PostCurrentSprint sampleLib sampleBackend List.reverse "C1" []).posts =
        [⟨"C1", "bot", "infra", [attachmentOf sampleBot (sampleIssue "PROJ-3" "infra" "In Progress")]⟩,
         ⟨"C1", "bot", "backend", [attachmentOf sampleBot (sampleIssue "PROJ-2" "backend" "To Do")]⟩] ∧
      ∀ call ∈ (sampleBot.PostCurrentSprint sampleLib sampleBackend List.reverse "C1" []).posts,
        ∃ l : List Issue, call.Attachments = l.map (attachmentOf sampleBot) ∧
          ∀ i ∈ l, i.Fields.Status.Category.Name ≠ "Done" ∧
            ∃ k id all, sampleBackend.GetIssuesOfSprint k sampleBot.JIRAAgileBoard id = .ok all ∧
              i ∈ all :=
  ⟨by decide, C6_done_exclusion sampleLib sampleBackend sampleBot List.reverse "C1" []
    (fun m => List.reverse_perm m)⟩

/-! ### The requests and pages of a fetch -/

/-- The requests of the loop extend the log, and a list returned is the slice
built so far followed by the items of the pages received later. -/
theorem fetchLoop_items {β α : Type} (L : Lib) (j : JIRA β)
    (decode : β → Except String (Paginated α)) (url : String) :
    ∀ (fuel : Nat) (startAt : Int) (acc : List α) (log : List Request) (items : List α),
      (fetchLoop L j decode url fuel startAt acc log).outcome = some (.ok items) →
      ∃ new, (fetchLoop L j decode url fuel startAt acc log).requests = log ++ new ∧
        items = acc ++ ((pagesFrom j decode log.length new).map fun p => p.Values).flatten := by
  intro fuel
  induction fuel with
  | zero => intro startAt acc log items h; simp [fetchLoop] at h
  | succ fuel ih =>
    intro startAt acc log items h
    simp only [fetchLoop, NewRequest, JIRA.DoWithAuth] at h ⊢
    cases hurl : L.urlOK url with
    | false => simp [hurl] at h
    | true =>
      simp only [hurl, if_true] at h ⊢
      cases hdo : j.Do log.length (withAuth j ⟨"GET", url, some startAt, none, none, none⟩) with
      | error e => simp [hdo] at h
      | ok resp =>
        simp only [hdo] at h ⊢
        by_cases hcode : resp.StatusCode = 200
        · simp only [hcode, ne_eq, not_true_eq_false, if_false] at h ⊢
          cases hdec : decode resp.Body with
          | error e => simp [hdec] at h
          | ok page =>
            simp only [hdec] at h ⊢
            have hpage : pageAt j decode log.length
                (withAuth j ⟨"GET", url, some startAt, none, none, none⟩) = some page := by
              simp [pageAt, hdo, hcode, hdec]
            by_cases hlen : (page.Values.length : Int) = page.MaxResults
            · simp only [hlen, if_true] at h ⊢
              obtain ⟨new, hreq, hitems⟩ := ih _ _ _ items h
              refine ⟨withAuth j ⟨"GET", url, some startAt, none, none, none⟩ :: new, ?_, ?_⟩
              · rw [hreq]; simp
              · rw [hitems]
                simp [pagesFrom, hpage]
            · simp only [hlen, if_false] at h ⊢
              refine ⟨[withAuth j ⟨"GET", url, some startAt, none, none, none⟩], rfl, ?_⟩
              simp only [Option.some.injEq, Except.ok.injEq] at h
              simp [pagesFrom, hpage, ← h]
        · simp [hcode] at h

/-- Counterexample to C7: a tracker answers with a page that holds the same
sprint twice; `GetSprintsOfBoard` returns the sprint twice. -/
theorem C7_counterexample :
    ((constJIRA ⟨⟨50, 0⟩, [sampleSprint 1 "active", sampleSprint 1 "active"]⟩).GetSprintsOfBoard
        sampleLib Except.ok 5 "7").outcome =
        some (.ok [sampleSprint 1 "active", sampleSprint 1 "active"]) ∧
      ¬ [sampleSprint 1 "active", sampleSprint 1 "active"].Nodup :=
  ⟨rfl, by decide⟩

/-- C7 (amended). For every tracker, the list that `GetSprintsOfBoard` or
`GetIssuesOfSprint` returns is the concatenation, in the order of the requests,
of the items of all the pages the call received, each page in its own order;
items served more than once are kept as often as they were served. -/
theorem C7_concatenation {β : Type} (L : Lib) (j : JIRA β)
    (decodeS : β → Except String PaginatedSprints)
    (decodeI : β → Except String PaginatedIssues) (fuel : Nat) (boardID : String)
    (sprintID : Int) :
    (∀ sprints, (j.GetSprintsOfBoard L decodeS fuel boardID).outcome = some (.ok sprints) →
      sprints = itemsFetched j decodeS (j.GetSprintsOfBoard L decodeS fuel boardID).requests) ∧
    (∀ issues,
      (j.GetIssuesOfSprint L decodeI fuel boardID sprintID).outcome = some (.ok issues) →
      issues =
        itemsFetched j decodeI (j.GetIssuesOfSprint L decodeI fuel boardID sprintID).requests) := by
  constructor
  · intro sprints h
    obtain ⟨new, hreq, hitems⟩ := fetchLoop_items L j decodeS _ fuel 0 [] [] sprints h
    unfold JIRA.GetSprintsOfBoard itemsFetched
    rw [hreq, hitems]; rfl
  · intro issues h
    obtain ⟨new, hreq, hitems⟩ := fetchLoop_items L j decodeI _ fuel 0 [] [] issues h
    unfold JIRA.GetIssuesOfSprint itemsFetched
    rw [hreq, hitems]; rfl

/-- Witness of C7 (amended): the four sample issues served in pages of two are
returned as the items of the three pages received. -/
theorem C7_concatenation_witness :
    sampleIssues =
      itemsFetched (pagedJIRA sampleSprints sampleIssues 2) (fun b => .ok b.2)
        ((pagedJIRA sampleSprints sampleIssues 2).GetIssuesOfSprint sampleLib
          (fun b => .ok b.2) 4 "7" 2).requests :=
  (C7_concatenation sampleLib (pagedJIRA sampleSprints sampleIssues 2) (fun b => .ok b.1)
    (fun b => .ok b.2) 4 "7" 2).2 sampleIssues rfl

theorem fetchLoop_rule {β α : Type} (L : Lib) (j : JIRA β)
    (decode : β → Except String (Paginated α)) (url : String) :
    ∀ (fuel : Nat) (startAt : Int) (acc : List α) (log : List Request),
      ∃ new, (fetchLoop L j decode url fuel startAt acc log).requests = log ++ new ∧
        PageRule j decode fuel log.length new
          (fetchLoop L j decode url fuel startAt acc log).outcome ∧
        ((∃ items, (fetchLoop L j decode url fuel startAt acc log).outcome = some (.ok items)) →
          new ≠ []) ∧
        (L.urlOK url = true → 0 < fuel →
          ∃ r0 rest, new = r0 :: rest ∧ r0.StartAt = some startAt) := by
  intro fuel
  induction fuel with
  | zero =>
    intro startAt acc log
    refine ⟨[], by simp [fetchLoop], ?_, by simp [fetchLoop], fun _ h => absurd h (by decide)⟩
    intro i r p hr; simp at hr
  | succ fuel ih =>
    intro startAt acc log
    simp only [fetchLoop, NewRequest, JIRA.DoWithAuth]
    cases hurl : L.urlOK url with
    | false =>
      refine ⟨[], by simp, ?_, by simp, fun h => absurd h (by simp)⟩
      intro i r p hr; simp at hr
    | true =>
      simp only [if_true]
      generalize hr0 : withAuth j ⟨"GET", url, some startAt, none, none, none⟩ = r0
      have hst : r0.StartAt = some startAt := by rw [← hr0]; rfl
      have hfail : ∀ (o : Option (Except (Error β) (List α))),
          pageAt j decode log.length r0 = none →
          ∃ new, log ++ [r0] = log ++ new ∧ PageRule j decode (fuel + 1) log.length new o ∧
            ((∃ items, o = some (.ok items)) → new ≠ []) ∧
            ∃ r rest, new = r :: rest ∧ r.StartAt = some startAt := by
        intro o hpa
        refine ⟨[r0], rfl, ?_, by simp, ⟨r0, [], rfl, hst⟩⟩
        intro i r p hr hp
        cases i with
        | zero =>
          simp only [List.getElem?_cons_zero, Option.some.injEq] at hr
          subst hr
          rw [Nat.add_zero, hpa] at hp; cases hp
        | succ i => simp at hr
      cases hdo : j.Do log.length r0 with
      | error e =>
        simp only []
        obtain ⟨new, h1, h2, h3, h4⟩ :=
          hfail (some (.error (.transport e))) (by simp [pageAt, hdo])
        exact ⟨new, h1, h2, h3, fun _ _ => h4⟩
      | ok resp =>
        simp only []
        by_cases hcode : resp.StatusCode = 200
        · simp only [hcode, ne_eq, not_true_eq_false, if_false]
          cases hdec : decode resp.Body with
          | error e =>
            simp only []
            obtain ⟨new, h1, h2, h3, h4⟩ :=
              hfail (some (.error (.decode e))) (by simp [pageAt, hdo, hcode, hdec])
            exact ⟨new, h1, h2, h3, fun _ _ => h4⟩
          | ok page =>
            simp only []
            have hpage : pageAt j decode log.length r0 = some page := by
              simp [pageAt, hdo, hcode, hdec]
            by_cases hlen : (page.Values.length : Int) = page.MaxResults
            · simp only [hlen, if_true]
              obtain ⟨new, hreq, hrule, hne, hhead⟩ :=
                ih (startAt + page.MaxResults) (acc ++ page.Values) (log ++ [r0])
              refine ⟨r0 :: new, by rw [hreq]; simp, ?_, by simp,
                fun _ _ => ⟨r0, new, rfl, hst⟩⟩
              intro i r p hr hp
              cases i with
              | zero =>
                simp only [List.getElem?_cons_zero, Option.some.injEq] at hr
                subst hr
                rw [Nat.add_zero, hpage] at hp
                cases hp
                refine ⟨⟨fun h => absurd hlen h, fun h => ?_⟩, fun _ hf => ?_⟩
                · have hnil : new = [] := by
                    have := h.1; simp only [List.length_cons] at this
                    exact List.length_eq_zero.1 (by omega)
                  exact absurd hnil (hne h.2)
                · obtain ⟨r2, rest, hnew, hr2⟩ := hhead hurl (by omega)
                  refine ⟨r2, by simp [hnew], ?_⟩
                  rw [hr2, hst]; rfl
              | succ i =>
                simp only [List.getElem?_cons_succ] at hr
                have hidx : (log ++ [r0]).length + i = log.length + (i + 1) := by
                  simp only [List.length_append, List.length_singleton]; omega
                obtain ⟨h1, h2⟩ := hrule i r p hr (by rw [hidx]; exact hp)
                refine ⟨?_, fun he hf => ?_⟩
                · rw [h1]; simp only [List.length_cons]
                  constructor
                  · rintro ⟨ha, hb⟩; exact ⟨by omega, hb⟩
                  · rintro ⟨ha, hb⟩; exact ⟨by omega, hb⟩
                · obtain ⟨r2, hr2, hs2⟩ := h2 he (by omega)
                  exact ⟨r2, by simpa using hr2, hs2⟩
            · simp only [hlen, if_false]
              refine ⟨[r0], rfl, ?_, by simp, fun _ _ => ⟨r0, [], rfl, hst⟩⟩
              intro i r p hr hp
              cases i with
              | zero =>
                simp only [List.getElem?_cons_zero, Option.some.injEq] at hr
                subst hr
                rw [Nat.add_zero, hpage] at hp
                cases hp
                exact ⟨⟨fun _ => ⟨rfl, _, rfl⟩, fun _ => hlen⟩, fun h => absurd h hlen⟩
              | succ i => simp at hr
        · simp only [hcode, ne_eq, not_false_eq_true, if_true]
          obtain ⟨new, h1, h2, h3, h4⟩ :=
            hfail (some (.error (.http (NewHTTPError resp)))) (by simp [pageAt, hdo, hcode])
          exact ⟨new, h1, h2, h3, fun _ _ => h4⟩

/-- Counterexample to C10: a page with two items and `maxResults = 1` is treated
as the last page (the fetch returns after this one request) although its number
of items is not less than its `maxResults`. -/
theorem C10_counterexample :
    ((constJIRA ⟨⟨1, 0⟩, [sampleSprint 1 "active", sampleSprint 2 "closed"]⟩).GetSprintsOfBoard
        sampleLib Except.ok 5 "7").requests.length = 1 ∧
      ((constJIRA ⟨⟨1, 0⟩, [sampleSprint 1 "active", sampleSprint 2 "closed"]⟩).GetSprintsOfBoard
        sampleLib Except.ok 5 "7").outcome =
        some (.ok [sampleSprint 1 "active", sampleSprint 2 "closed"]) ∧
      ¬ (([sampleSprint 1 "active", sampleSprint 2 "closed"].length : Int) < 1) :=
  ⟨rfl, rfl, by decide⟩

/-- C10 (amended). Last-page rule: for every tracker and every page a call of
`GetSprintsOfBoard` or `GetIssuesOfSprint` receives, the call stops after the
page and returns the list exactly when the number of items of the page differs
from the `maxResults` of the page (fewer or more); when the two are equal, the
next request asks for the offset advanced by `maxResults`. -/
theorem C10_last_page_rule {β : Type} (L : Lib) (j : JIRA β)
    (decodeS : β → Except String PaginatedSprints)
    (decodeI : β → Except String PaginatedIssues) (fuel : Nat) (boardID : String)
    (sprintID : Int) :
    PageRule j decodeS fuel 0 (j.GetSprintsOfBoard L decodeS fuel boardID).requests
        (j.GetSprintsOfBoard L decodeS fuel boardID).outcome ∧
      PageRule j decodeI fuel 0 (j.GetIssuesOfSprint L decodeI fuel boardID sprintID).requests
        (j.GetIssuesOfSprint L decodeI fuel boardID sprintID).outcome := by
  constructor
  · obtain ⟨new, hreq, hrule, -, -⟩ :=
      fetchLoop_rule L j decodeS (sprintsURL j boardID) fuel 0 [] []
    unfold JIRA.GetSprintsOfBoard
    rw [hreq]; simpa using hrule
  · obtain ⟨new, hreq, hrule, -, -⟩ :=
      fetchLoop_rule L j decodeI (issuesURL j boardID sprintID) fuel 0 [] []
    unfold JIRA.GetIssuesOfSprint
    rw [hreq]; simpa using hrule

/-- Witness of C10 (amended): with four issues served in pages of two, the
second page is full, and the third request asks for the offset 4. -/
theorem C10_last_page_rule_witness :
    ∃ r2, ((pagedJIRA sampleSprints sampleIssues 2).GetIssuesOfSprint sampleLib
        (fun b => .ok b.2) 4 "7" 2).requests[2]? = some r2 ∧ r2.StartAt = some 4 := by
  have h := (C10_last_page_rule sampleLib (pagedJIRA sampleSprints sampleIssues 2)
    (fun b => .ok b.1) (fun b => .ok b.2) 4 "7" 2).2 1
    (withAuth (pagedJIRA sampleSprints sampleIssues 2)
      ⟨"GET", issuesURL (pagedJIRA sampleSprints sampleIssues 2) "7" 2, some 2, none, none, none⟩)
    (pageOf sampleIssues 2 2) rfl rfl
  obtain ⟨r2, h1, h2⟩ := h.2 (by decide) (by decide)
  exact ⟨r2, h1, h2⟩

/-! ### Patterns -/

theorem run_cat_nil (s : MState) : (cat []).run s = [s] := by
  simp [cat, Re.run]

theorem run_cat_cons (a : Re) (l : List Re) (s : MState) :
    (cat (a :: l)).run s = (a.run s).flatMap fun s1 => (cat l).run s1 := by
  simp [cat, Re.run]

theorem run_lits (f : Char → Cls) :
    ∀ (cs : List Char) (s : MState),
      (lits f cs).run s =
        match matchLits f cs s.rest with
        | some r => [{ pos := s.pos + cs.length, rest := r, caps := s.caps }]
        | none => [] := by
  intro cs
  induction cs with
  | nil => intro s; simp [lits, cat, Re.run, matchLits]
  | cons c cs ih =>
    intro s
    obtain ⟨pos, rest, caps⟩ := s
    have ih2 := fun s => ih s
    simp only [lits] at ih2
    cases rest with
    | nil => simp [lits, cat, Re.run, matchLits]
    | cons r rs =>
      by_cases ht : (f c).test r = true
      · simp only [lits, List.map_cons, cat, Re.run, ht, if_true, List.flatMap_cons,
          List.flatMap_nil, List.append_nil, matchLits, ih2, List.length_cons]
        cases matchLits f cs rs with
        | none => rfl
        | some r2 => simp only [List.cons.injEq, and_true, MState.mk.injEq, true_and]; omega
      · simp [lits, cat, Re.run, ht, matchLits]

theorem matchLits_lit_append (cs r : List Char) : matchLits .lit cs (cs ++ r) = some r := by
  induction cs with
  | nil => rfl
  | cons c cs ih => simp [matchLits, Cls.test, ih]

theorem matchLits_lit_some (cs : List Char) :
    ∀ (rest r : List Char), matchLits .lit cs rest = some r → rest = cs ++ r := by
  induction cs with
  | nil => intro rest r h; simp [matchLits] at h; simp [h]
  | cons c cs ih =>
    intro rest r h
    cases rest with
    | nil => simp [matchLits] at h
    | cons x xs =>
      simp only [matchLits, Cls.test] at h
      split at h
      · rename_i hx
        have hx2 : x = c := by simpa using hx
        rw [hx2, ih xs r h]; rfl
      · cases h

theorem matchLits_forall₂ (f : Char → Cls) (cs : List Char) :
    ∀ (pre r : List Char), List.Forall₂ (fun c x => (f c).test x = true) cs pre →
      matchLits f cs (pre ++ r) = some r := by
  induction cs with
  | nil => intro pre r h; cases h; rfl
  | cons c cs ih =>
    intro pre r h
    cases h with
    | cons hx hrest => simp [matchLits, hx, ih _ r hrest]

/-- The longest run of `c*` comes first: it stops at the first character that
`c` does not match. -/
theorem starRun_head (c : Cls) (caps : List (Nat × List Char)) :
    ∀ (rest : List Char) (pos : Nat),
      ∃ tl, starRun c caps pos rest =
        { pos := pos + (rest.takeWhile c.test).length, rest := rest.dropWhile c.test,
          caps := caps } :: tl := by
  intro rest
  induction rest with
  | nil => intro pos; exact ⟨[], by simp [starRun]⟩
  | cons r rs ih =>
    intro pos
    by_cases ht : c.test r = true
    · obtain ⟨tl, htl⟩ := ih (pos + 1)
      refine ⟨tl ++ [{ pos := pos, rest := r :: rs, caps := caps }], ?_⟩
      simp only [starRun, ht, if_true, htl, List.takeWhile_cons, List.dropWhile_cons,
        List.length_cons, List.cons_append, List.cons.injEq, and_true, MState.mk.injEq]
      omega
    · exact ⟨[], by simp [starRun, ht, List.takeWhile_cons, List.dropWhile_cons]⟩

theorem takeWhile_oneLine (s : List Char) (h : oneLine s) : firstLine s = s := by
  unfold firstLine
  rw [List.takeWhile_eq_self_iff]
  intro c hc
  simpa using h c hc

theorem dropWhile_oneLine (s : List Char) (h : oneLine s) :
    s.dropWhile (Cls.test .dot) = [] := by
  rw [List.dropWhile_eq_nil_iff]
  intro c hc
  simpa [Cls.test] using h c hc

theorem take_takeWhile_length {α : Type} (p : α → Bool) (l : List α) :
    l.take (l.takeWhile p).length = l.takeWhile p := by
  induction l with
  | nil => rfl
  | cons a l ih =>
    by_cases h : p a = true
    · simp [List.takeWhile_cons, h, ih]
    · simp [List.takeWhile_cons, h]

theorem run_bol_pos (l : List Re) (s : MState) (h : s.pos ≠ 0) :
    (cat (.bol :: l)).run s = [] := by
  simp [run_cat_cons, Re.run, h]

theorem run_bol_zero (l : List Re) (rest : List Char) (caps : List (Nat × List Char)) :
    (cat (.bol :: l)).run { pos := 0, rest := rest, caps := caps } =
      (cat l).run { pos := 0, rest := rest, caps := caps } := by
  simp [run_cat_cons, Re.run]

theorem search_bol_pos (l : List Re) :
    ∀ (t : List Char) (pos : Nat), pos ≠ 0 → (cat (.bol :: l)).search pos t = none := by
  intro t
  induction t with
  | nil =>
    intro pos h
    simp only [Re.search]
    rw [run_bol_pos l _ h]
  | cons c cs ih =>
    intro pos h
    simp only [Re.search]
    rw [run_bol_pos l _ h]
    exact ih (pos + 1) (by omega)

/-- A pattern that begins with `^` matches at the beginning of the text or not at
all. -/
theorem search_bol (l : List Re) (t : List Char) :
    (cat (.bol :: l)).search 0 t =
      match (cat l).run { pos := 0, rest := t, caps := [] } with
      | s :: _ => some (t.take s.pos, s)
      | [] => none := by
  cases t with
  | nil =>
    simp only [Re.search, run_bol_zero]
    cases (cat l).run { pos := 0, rest := [], caps := [] } <;> simp
  | cons c cs =>
    simp only [Re.search, run_bol_zero]
    cases (cat l).run { pos := 0, rest := c :: cs, caps := [] } with
    | nil => simp only []; exact search_bol_pos l cs 1 (by decide)
    | cons s tl => simp

theorem run_opt_chr_nil (c : Cls) (pos : Nat) (caps : List (Nat × List Char)) :
    (Re.opt (.chr c)).run { pos := pos, rest := [], caps := caps } =
      [{ pos := pos, rest := [], caps := caps }] := by
  simp [Re.run]

theorem run_opt_chr_hit (c : Cls) (pos : Nat) (r : Char) (rs : List Char)
    (caps : List (Nat × List Char)) (h : c.test r = true) :
    (Re.opt (.chr c)).run { pos := pos, rest := r :: rs, caps := caps } =
      [{ pos := pos + 1, rest := rs, caps := caps }, { pos := pos, rest := r :: rs, caps := caps }] := by
  simp [Re.run, h]

theorem run_opt_chr_miss (c : Cls) (pos : Nat) (r : Char) (rs : List Char)
    (caps : List (Nat × List Char)) (h : ¬ c.test r = true) :
    (Re.opt (.chr c)).run { pos := pos, rest := r :: rs, caps := caps } =
      [{ pos := pos, rest := r :: rs, caps := caps }] := by
  simp [Re.run, h]

/-- The pattern `(.*)` always matches; its first match captures the line. -/
theorem run_groupDots (i : Nat) (p : Nat) (r : List Char) (caps : List (Nat × List Char)) :
    ∃ tl, (cat [.group i (.star .dot)]).run { pos := p, rest := r, caps := caps } =
      { pos := p + (firstLine r).length, rest := r.dropWhile (Cls.test .dot),
        caps := (i, firstLine r) :: caps } :: tl := by
  obtain ⟨tl, htl⟩ := starRun_head .dot caps r p
  have hf : firstLine r = r.takeWhile (Cls.test .dot) := rfl
  rw [run_cat_cons]
  simp only [Re.run, htl, List.map_cons, List.flatMap_cons, run_cat_nil, List.singleton_append,
    Nat.add_sub_cancel_left, take_takeWhile_length, hf]
  exact ⟨_, rfl⟩

/-- The end `:?(.*)` of the mention pattern always matches; its first match
captures the line after the optional colon. -/
theorem run_mentionTail (s : MState) :
    ∃ pos rest tl,
      (cat [.opt (.chr (.lit (Char.ofNat 58))), .group 1 (.star .dot)]).run s =
        { pos := pos, rest := rest, caps := (1, firstLine (afterColon s.rest)) :: s.caps } :: tl := by
  obtain ⟨pos, rest, caps⟩ := s
  cases rest with
  | nil =>
    obtain ⟨tl, h⟩ := run_groupDots 1 pos [] caps
    refine ⟨pos + (firstLine []).length, List.dropWhile (Cls.test .dot) [], tl, ?_⟩
    rw [run_cat_cons, run_opt_chr_nil]
    simp only [List.flatMap_cons, List.flatMap_nil, List.append_nil, afterColon]
    exact h
  | cons c r =>
    by_cases hc : c = Char.ofNat 58
    · obtain ⟨tl, h⟩ := run_groupDots 1 (pos + 1) r caps
      refine ⟨pos + 1 + (firstLine r).length, r.dropWhile (Cls.test .dot),
        tl ++ (cat [.group 1 (.star .dot)]).run ⟨pos, c :: r, caps⟩, ?_⟩
      rw [run_cat_cons, run_opt_chr_hit _ _ _ _ _ (by simp [Cls.test, hc])]
      simp only [List.flatMap_cons, List.flatMap_nil, List.append_nil, afterColon, hc, if_true]
      rw [h]; rfl
    · obtain ⟨tl, h⟩ := run_groupDots 1 pos (c :: r) caps
      refine ⟨pos + (firstLine (c :: r)).length, (c :: r).dropWhile (Cls.test .dot), tl, ?_⟩
      rw [run_cat_cons, run_opt_chr_miss _ _ _ _ _ (by simp [Cls.test, hc])]
      simp only [List.flatMap_cons, List.flatMap_nil, List.append_nil, afterColon, hc, if_false]
      exact h

theorem run_mentionBody (name : List Char) (s : MState) :
    (matchLits .lit name s.rest = none →
      (cat [lits .lit name, .opt (.chr (.lit (Char.ofNat 58))), .group 1 (.star .dot)]).run s
        = []) ∧
    (∀ r, matchLits .lit name s.rest = some r → ∃ pos rest tl,
      (cat [lits .lit name, .opt (.chr (.lit (Char.ofNat 58))), .group 1 (.star .dot)]).run s
        = { pos := pos, rest := rest, caps := (1, firstLine (afterColon r)) :: s.caps } :: tl) := by
  constructor
  · intro h
    rw [run_cat_cons, run_lits, h]; rfl
  · intro r h
    rw [run_cat_cons, run_lits, h]
    obtain ⟨pos, rest, tl, ht⟩ := run_mentionTail ⟨s.pos + name.length, r, s.caps⟩
    exact ⟨pos, rest, tl, by simp [ht]⟩

/-- The mention pattern matches exactly the texts that begin with the bot name,
with or without an `@` before it; group 1 is then the line after the name and
the optional colon. -/
theorem find_mention (name t : List Char) :
    (afterName name t = none →
      FindStringSubmatch (mentionPattern name) 1 t = []) ∧
    (∀ r, afterName name t = some r → ∃ m,
      FindStringSubmatch (mentionPattern name) 1 t =
        [m, firstLine (afterColon r)]) := by
  have hbody := fun s => run_mentionBody name s
  have key : ∀ (l : List MState) (s : MState), (cat [.opt (.chr (.lit (Char.ofNat 64))),
      lits .lit name, .opt (.chr (.lit (Char.ofNat 58))), .group 1 (.star .dot)]).run
        { pos := 0, rest := t, caps := [] } = l →
      (l = [] → FindStringSubmatch (mentionPattern name) 1 t = []) ∧
      (∀ tl, l = s :: tl → FindStringSubmatch (mentionPattern name) 1 t =
        [t.take s.pos, capture s.caps 1]) := by
    intro l s hl
    constructor
    · intro h
      simp only [FindStringSubmatch, mentionPattern, search_bol, hl, h]
    · intro tl h
      simp only [FindStringSubmatch, mentionPattern, search_bol, hl, h]
      rfl
  cases t with
  | nil =>
    have hrun : (cat [.opt (.chr (.lit (Char.ofNat 64))), lits .lit name,
        .opt (.chr (.lit (Char.ofNat 58))), .group 1 (.star .dot)]).run
          { pos := 0, rest := [], caps := [] } =
        (cat [lits .lit name, .opt (.chr (.lit (Char.ofNat 58))), .group 1 (.star .dot)]).run
          { pos := 0, rest := [], caps := [] } := by
      rw [run_cat_cons]; simp [Re.run]
    constructor
    · intro h
      simp only [afterName] at h
      exact (key [] ⟨0, [], []⟩ (by rw [hrun]; exact (hbody _).1 h)).1 rfl
    · intro r h
      simp only [afterName] at h
      obtain ⟨pos, rest, tl, hb⟩ := (hbody ⟨0, [], []⟩).2 r h
      exact ⟨_, (key _ ⟨pos, rest, _⟩ (by rw [hrun]; exact hb)).2 tl rfl⟩
  | cons c t2 =>
    by_cases hc : c = Char.ofNat 64
    · have hrun : (cat [.opt (.chr (.lit (Char.ofNat 64))), lits .lit name,
          .opt (.chr (.lit (Char.ofNat 58))), .group 1 (.star .dot)]).run
            { pos := 0, rest := c :: t2, caps := [] } =
          (cat [lits .lit name, .opt (.chr (.lit (Char.ofNat 58))), .group 1 (.star .dot)]).run
            { pos := 1, rest := t2, caps := [] } ++
          (cat [lits .lit name, .opt (.chr (.lit (Char.ofNat 58))), .group 1 (.star .dot)]).run
            { pos := 0, rest := c :: t2, caps := [] } := by
        rw [run_cat_cons]; simp [Re.run, Cls.test, hc]
      cases h1 : matchLits .lit name t2 with
      | some r1 =>
        obtain ⟨pos, rest, tl, hb⟩ := (hbody ⟨1, t2, []⟩).2 r1 h1
        constructor
        · intro h; simp [afterName, if_pos hc, h1] at h
        · intro r h
          simp only [afterName, if_pos hc, h1, Option.some.injEq] at h
          subst h
          exact ⟨_, (key _ ⟨pos, rest, _⟩ (by rw [hrun, hb]; rfl)).2 _ rfl⟩
      | none =>
        have hb1 := (hbody ⟨1, t2, []⟩).1 h1
        constructor
        · intro h
          simp only [afterName, if_pos hc, h1] at h
          exact (key [] ⟨0, [], []⟩ (by rw [hrun, hb1, (hbody ⟨0, c :: t2, []⟩).1 h]; rfl)).1 rfl
        · intro r h
          simp only [afterName, if_pos hc, h1] at h
          obtain ⟨pos, rest, tl, hb⟩ := (hbody ⟨0, c :: t2, []⟩).2 r h
          exact ⟨_, (key _ ⟨pos, rest, _⟩ (by rw [hrun, hb1, hb]; rfl)).2 tl rfl⟩
    · have hrun : (cat [.opt (.chr (.lit (Char.ofNat 64))), lits .lit name,
          .opt (.chr (.lit (Char.ofNat 58))), .group 1 (.star .dot)]).run
            { pos := 0, rest := c :: t2, caps := [] } =
          (cat [lits .lit name, .opt (.chr (.lit (Char.ofNat 58))), .group 1 (.star .dot)]).run
            { pos := 0, rest := c :: t2, caps := [] } := by
        rw [run_cat_cons]; simp [Re.run, Cls.test, hc]
      constructor
      · intro h
        simp only [afterName, hc, if_false] at h
        exact (key [] ⟨0, [], []⟩ (by rw [hrun]; exact (hbody _).1 h)).1 rfl
      · intro r h
        simp only [afterName, hc, if_false] at h
        obtain ⟨pos, rest, tl, hb⟩ := (hbody ⟨0, c :: t2, []⟩).2 r h
        exact ⟨_, (key _ ⟨pos, rest, _⟩ (by rw [hrun]; exact hb)).2 tl rfl⟩

/-! ### Characters and strings -/

theorem toNat_ofNat_small (m : Nat) (h : m < 55296) : (Char.ofNat m).toNat = m := by
  have hv : m.isValidChar := Or.inl h
  simp only [Char.ofNat, hv, dite_true, Char.toNat, Char.ofNatAux]
  simp [UInt32.toNat]

theorem swapCase_cases (c : Char) :
    swapCase c = c ∨ (65 ≤ (swapCase c).toNat ∧ (swapCase c).toNat ≤ 122) := by
  unfold swapCase
  by_cases h1 : c.isLower = true
  · right
    have h2 : 97 ≤ c.toNat ∧ c.toNat ≤ 122 := by
      simp only [Char.isLower, Bool.and_eq_true, decide_eq_true_eq] at h1
      exact ⟨h1.1, h1.2⟩
    simp only [h1, if_true, Char.toUpper]
    rw [if_pos (show c.toNat ≥ 97 ∧ c.toNat ≤ 122 from ⟨h2.1, h2.2⟩)]
    rw [toNat_ofNat_small _ (by omega)]
    omega
  · by_cases h3 : c.isUpper = true
    · right
      have h2 : 65 ≤ c.toNat ∧ c.toNat ≤ 90 := by
        simp only [Char.isUpper, Bool.and_eq_true, decide_eq_true_eq] at h3
        exact ⟨h3.1, h3.2⟩
      rw [if_neg h1, if_pos h3]
      simp only [Char.toLower]
      rw [if_pos (show c.toNat ≥ 65 ∧ c.toNat ≤ 90 from ⟨h2.1, h2.2⟩)]
      rw [toNat_ofNat_small _ (by omega)]
      omega
    · left; simp [h1, h3]

theorem isSpace_of_range (c : Char) (h : 33 ≤ c.toNat ∧ c.toNat ≤ 132) : isSpace c = false := by
  simp only [isSpace, Bool.or_eq_false_iff, Bool.and_eq_false_iff, decide_eq_false_iff_not]
  omega

theorem isSpace_swapCase (c : Char) (h : isSpace c = false) : isSpace (swapCase c) = false := by
  rcases swapCase_cases c with h1 | h1
  · rw [h1]; exact h
  · exact isSpace_of_range _ (by omega)

theorem fold_test_space (c : Char) (h : isSpace c = false) :
    (Cls.fold c).test (Char.ofNat 32) = false := by
  have hc : c ≠ Char.ofNat 32 := by
    intro h2; rw [h2] at h; revert h; decide
  have hs : swapCase c ≠ Char.ofNat 32 := by
    rcases swapCase_cases c with h1 | h1
    · rw [h1]; exact hc
    · intro h2; rw [h2] at h1; revert h1; decide
  simp only [Cls.test, Bool.or_eq_false_iff, Bool.and_eq_false_iff, decide_eq_false_iff_not]
  refine ⟨⟨⟨fun h2 => hc h2.symm, fun h2 => hs h2.symm⟩, Or.inr (by decide)⟩, Or.inr (by decide)⟩

theorem takeWhile_block {α : Type} (p : α → Bool) (l tail : List α) (hl : ∀ x ∈ l, p x = true)
    (ht : tail = [] ∨ ∃ x xs, tail = x :: xs ∧ p x = false) :
    (l ++ tail).takeWhile p = l ∧ (l ++ tail).dropWhile p = tail := by
  rw [List.takeWhile_append_of_pos hl, List.dropWhile_append_of_pos hl]
  rcases ht with h | ⟨x, xs, h, hx⟩
  · subst h; simp
  · subst h; simp [List.takeWhile_cons, List.dropWhile_cons, hx]

/-- The pattern `[0-9]+` first takes all the digits at the position. -/
theorem run_digits (ds tail : List Char) (pos : Nat) (caps : List (Nat × List Char))
    (hds : isDigits ds) (hne : ds ≠ [])
    (ht : tail = [] ∨ ∃ x xs, tail = x :: xs ∧ Cls.digit.test x = false) :
    ∃ tl, (cat [.chr .digit, .star .digit]).run { pos := pos, rest := ds ++ tail, caps := caps } =
      { pos := pos + ds.length, rest := tail, caps := caps } :: tl := by
  cases ds with
  | nil => exact absurd rfl hne
  | cons d ds =>
    have hd : Cls.digit.test d = true := hds d (List.mem_cons_self _ _)
    have hds2 : ∀ x ∈ ds, Cls.digit.test x = true := fun x hx => hds x (List.mem_cons_of_mem _ hx)
    obtain ⟨h1, h2⟩ := takeWhile_block Cls.digit.test ds tail hds2 ht
    obtain ⟨tl, htl⟩ := starRun_head .digit caps (ds ++ tail) (pos + 1)
    rw [h1, h2] at htl
    refine ⟨tl.flatMap fun s1 => (cat []).run s1, ?_⟩
    rw [run_cat_cons]
    simp only [Re.run, List.cons_append, hd, if_true, List.flatMap_cons, List.flatMap_nil,
      List.append_nil, run_cat_cons, htl, run_cat_nil, List.singleton_append, List.length_cons,
      List.cons.injEq, MState.mk.injEq, and_true]
    exact ⟨by omega, rfl⟩

/-- The pattern `(.*)$` on a text without line feed captures the text. -/
theorem run_dotsEnd (i : Nat) (pos : Nat) (r : List Char) (caps : List (Nat × List Char))
    (h : oneLine r) :
    ∃ tl, (cat [.group i (.star .dot), .eol]).run { pos := pos, rest := r, caps := caps } =
      { pos := pos + r.length, rest := [], caps := (i, r) :: caps } :: tl := by
  obtain ⟨tl, htl⟩ := starRun_head .dot caps r pos
  have hf : r.takeWhile (Cls.test .dot) = r := takeWhile_oneLine r h
  rw [dropWhile_oneLine r h, hf] at htl
  rw [run_cat_cons]
  simp only [Re.run, htl, List.map_cons, List.flatMap_cons, run_cat_cons, run_cat_nil,
    if_true, List.singleton_append, Nat.add_sub_cancel_left, List.take_length,
    List.flatMap_nil, List.append_nil]
  exact ⟨_, rfl⟩

/-- The pattern `PREFIX-` under `(?i)`. -/
theorem run_prefixDash (pfx : List Char) (s : MState) :
    (cat [lits .fold pfx, .chr (.fold (Char.ofNat 45))]).run s =
      match matchLits .fold pfx s.rest with
      | some (x :: r) =>
        if (Cls.fold (Char.ofNat 45)).test x then
          [{ pos := s.pos + pfx.length + 1, rest := r, caps := s.caps }]
        else []
      | _ => [] := by
  rw [run_cat_cons, run_lits]
  cases h : matchLits .fold pfx s.rest with
  | none => rfl
  | some r =>
    cases r with
    | nil => simp [run_cat_cons, Re.run]
    | cons x r =>
      by_cases hx : (Cls.fold (Char.ofNat 45)).test x = true
      · simp [run_cat_cons, run_cat_nil, Re.run, hx]
      · simp [run_cat_cons, run_cat_nil, Re.run, hx]

/-- After a bare number, the pattern `PREFIX-` does not match. -/
theorem matchLits_bare (pfx : List Char) (hsp : ∀ c ∈ pfx, isSpace c = false) :
    ∀ (ds tail : List Char), isDigits ds →
      (tail = [] ∨ ∃ cm, tail = Char.ofNat 32 :: cm) →
      ∀ x r, matchLits .fold pfx (ds ++ tail) = some (x :: r) →
        (Cls.fold (Char.ofNat 45)).test x = false := by
  induction pfx with
  | nil =>
    intro ds tail hds ht x r h
    simp only [matchLits, Option.some.injEq] at h
    cases ds with
    | nil =>
      rcases ht with ht | ⟨cm, ht⟩
      · subst ht; cases h
      · subst ht
        simp only [List.nil_append, List.cons.injEq] at h
        rw [← h.1]; decide
    | cons d ds =>
      simp only [List.cons_append, List.cons.injEq] at h
      have hd : Cls.digit.test d = true := hds d (List.mem_cons_self _ _)
      rw [← h.1]
      simp only [Cls.test, Bool.and_eq_true, decide_eq_true_eq] at hd
      have hne : d ≠ Char.ofNat 45 := by
        intro h2; rw [h2] at hd; revert hd; decide
      have hsw : swapCase (Char.ofNat 45) = Char.ofNat 45 := by decide
      simp only [Cls.test, hsw, Bool.or_self, Bool.or_eq_false_iff, Bool.and_eq_false_iff,
        decide_eq_false_iff_not]
      exact ⟨⟨hne, Or.inl (by decide)⟩, Or.inl (by decide)⟩
  | cons c cs ih =>
    intro ds tail hds ht x r h
    have hcs : ∀ c ∈ cs, isSpace c = false := fun c hc => hsp c (List.mem_cons_of_mem _ hc)
    cases ds with
    | nil =>
      rcases ht with ht | ⟨cm, ht⟩
      · subst ht; simp [matchLits] at h
      · subst ht
        simp only [List.nil_append, matchLits,
          fold_test_space c (hsp c (List.mem_cons_self _ _))] at h
        cases h
    | cons d ds =>
      simp only [List.cons_append, matchLits] at h
      split at h
      · exact ih hcs ds tail (fun y hy => hds y (List.mem_cons_of_mem _ hy)) ht x r h
      · cases h

theorem fold_of_sameUpToCase (pfx pre : List Char) (h : sameUpToCase pfx pre) :
    List.Forall₂ (fun c x => (Cls.fold c).test x = true) pfx pre := by
  induction h with
  | nil => exact List.Forall₂.nil
  | cons hx _ ih =>
    refine List.Forall₂.cons ?_ ih
    rcases hx with hx | hx <;> simp [Cls.test, hx]

theorem run_opt (a : Re) (s : MState) : (Re.opt a).run s = a.run s ++ [s] := by
  simp [Re.run]

theorem run_group (i : Nat) (a : Re) (s : MState) :
    (Re.group i a).run s =
      (a.run s).map fun s1 =>
        { pos := s1.pos, rest := s1.rest, caps := (i, s.rest.take (s1.pos - s.pos)) :: s1.caps } := by
  simp [Re.run]

theorem space_not_digit : Cls.digit.test (Char.ofNat 32) = false := by decide

theorem tail_not_digit (tail : List Char) (ht : tail = [] ∨ ∃ cm, tail = Char.ofNat 32 :: cm) :
    tail = [] ∨ ∃ x xs, tail = x :: xs ∧ Cls.digit.test x = false := by
  rcases ht with h | ⟨cm, h⟩
  · exact Or.inl h
  · exact Or.inr ⟨_, cm, h, space_not_digit⟩

/-- On a bare number the key pattern skips the optional prefix and takes the
digits. -/
theorem run_key_bare (pfx : List Char) (hsp : ∀ c ∈ pfx, isSpace c = false)
    (ds tail : List Char) (pos : Nat) (caps : List (Nat × List Char))
    (hds : isDigits ds) (hne : ds ≠ [])
    (ht : tail = [] ∨ ∃ cm, tail = Char.ofNat 32 :: cm) :
    ∃ tl, (keyPattern pfx).run { pos := pos, rest := ds ++ tail, caps := caps } =
      { pos := pos + ds.length, rest := tail, caps := caps } :: tl := by
  have hG2 : (cat [lits .fold pfx, .chr (.fold (Char.ofNat 45))]).run
      { pos := pos, rest := ds ++ tail, caps := caps } = [] := by
    rw [run_prefixDash]
    cases h : matchLits .fold pfx (ds ++ tail) with
    | none => simp [h]
    | some r =>
      cases r with
      | nil => simp [h]
      | cons x r =>
        have := matchLits_bare pfx hsp ds tail hds ht x r h
        simp [h, this]
  obtain ⟨tl, htl⟩ := run_digits ds tail pos caps hds hne (tail_not_digit tail ht)
  refine ⟨tl, ?_⟩
  unfold keyPattern
  rw [run_cat_cons, run_opt, run_group, hG2]
  simp only [List.map_nil, List.nil_append, List.flatMap_cons, List.flatMap_nil,
    List.append_nil]
  exact htl

/-- On a full key the key pattern takes the prefix, the dash and the digits; group
2 is the prefix with the dash. -/
theorem run_key_full (pfx pre : List Char) (hpre : sameUpToCase pfx pre)
    (ds tail : List Char) (pos : Nat) (caps : List (Nat × List Char))
    (hds : isDigits ds) (hne : ds ≠ [])
    (ht : tail = [] ∨ ∃ cm, tail = Char.ofNat 32 :: cm) :
    ∃ tl, (keyPattern pfx).run
        { pos := pos, rest := (pre ++ Char.ofNat 45 :: ds) ++ tail, caps := caps } =
      { pos := pos + (pre ++ Char.ofNat 45 :: ds).length, rest := tail,
        caps := (2, pre ++ [Char.ofNat 45]) :: caps } :: tl := by
  have hlen : pre.length = pfx.length := (List.Forall₂.length_eq hpre).symm
  have hm : matchLits .fold pfx ((pre ++ Char.ofNat 45 :: ds) ++ tail) =
      some (Char.ofNat 45 :: (ds ++ tail)) := by
    have := matchLits_forall₂ .fold pfx pre (Char.ofNat 45 :: (ds ++ tail))
      (fold_of_sameUpToCase pfx pre hpre)
    simpa using this
  have hG2 : (cat [lits .fold pfx, .chr (.fold (Char.ofNat 45))]).run
      { pos := pos, rest := (pre ++ Char.ofNat 45 :: ds) ++ tail, caps := caps } =
      [{ pos := pos + pfx.length + 1, rest := ds ++ tail, caps := caps }] := by
    rw [run_prefixDash]
    simp only [hm]
    rw [if_pos (by decide)]
  obtain ⟨tl, htl⟩ := run_digits ds tail (pos + pfx.length + 1)
    ((2, pre ++ [Char.ofNat 45]) :: caps) hds hne (tail_not_digit tail ht)
  refine ⟨tl ++ (cat [.chr .digit, .star .digit]).run
    { pos := pos, rest := (pre ++ Char.ofNat 45 :: ds) ++ tail, caps := caps }, ?_⟩
  have htake : List.take (pfx.length + 1) ((pre ++ Char.ofNat 45 :: ds) ++ tail) =
      pre ++ [Char.ofNat 45] := by
    have h1 : (pre ++ Char.ofNat 45 :: ds) ++ tail = (pre ++ [Char.ofNat 45]) ++ (ds ++ tail) := by
      simp
    rw [h1, List.take_left' (by simp [hlen])]
  unfold keyPattern
  rw [run_cat_cons, run_opt, run_group, hG2]
  simp only [List.map_cons, List.map_nil, List.singleton_append,
    List.flatMap_cons, List.flatMap_nil, List.append_nil]
  have hp : pos + pfx.length + 1 - pos = pfx.length + 1 := by omega
  rw [hp, htake, htl]
  simp only [List.cons_append, List.length_append, List.length_cons, hlen, List.cons.injEq,
    MState.mk.injEq, and_true]
  omega

/-- The resolve pattern on `resolve KEY TAIL`, given the first match of the key
pattern: the groups are the key, the prefix part and the tail. -/
theorem find_resolve (pfx k tail : List Char) (g2 : List (Nat × List Char)) (tl : List MState)
    (hkey : (keyPattern pfx).run { pos := 8, rest := k ++ tail, caps := [] } =
      { pos := 8 + k.length, rest := tail, caps := g2 } :: tl)
    (hone : oneLine tail) :
    ∃ m, FindStringSubmatch (resolvePattern pfx) 3 ("resolve ".data ++ (k ++ tail)) =
      [m, k, capture g2 2, tail] := by
  obtain ⟨tl2, hend⟩ := run_dotsEnd 3 (8 + k.length) tail ((1, k) :: g2) hone
  have hrun : ∃ tl3, (cat [lits .lit "resolve ".data, .group 1 (keyPattern pfx),
      .group 3 (.star .dot), .eol]).run ⟨0, "resolve ".data ++ (k ++ tail), []⟩ =
      ⟨8 + k.length + tail.length, [], (3, tail) :: (1, k) :: g2⟩ :: tl3 := by
    rw [run_cat_cons, run_lits]
    simp only [matchLits_lit_append]
    have h8 : (0 + "resolve ".data.length) = 8 := by decide
    rw [h8]
    simp only [List.flatMap_cons, List.flatMap_nil, List.append_nil]
    rw [run_cat_cons, run_group, hkey]
    simp only [List.map_cons, List.flatMap_cons, Nat.add_sub_cancel_left, List.take_left, hend,
      List.cons_append]
    exact ⟨_, rfl⟩
  obtain ⟨tl3, h3⟩ := hrun
  refine ⟨("resolve ".data ++ (k ++ tail)).take (8 + k.length + tail.length), ?_⟩
  simp only [FindStringSubmatch, resolvePattern, search_bol, h3]
  have hr : List.range 3 = [0, 1, 2] := by decide
  simp [hr, capture, List.lookup]

theorem dropWhile_all_false {α : Type} (p : α → Bool) (l : List α)
    (h : ∀ x ∈ l, p x = false) : l.dropWhile p = l := by
  cases l with
  | nil => rfl
  | cons a l => simp [List.dropWhile_cons, h a (List.mem_cons_self _ _)]

theorem TrimSpace_id (s : List Char) (h : ∀ c ∈ s, isSpace c = false) : TrimSpace s = s := by
  unfold TrimSpace
  rw [dropWhile_all_false isSpace s h,
    dropWhile_all_false isSpace s.reverse (fun c hc => h c (List.mem_reverse.1 hc)),
    List.reverse_reverse]

theorem dropWhile_snoc {α : Type} (p : α → Bool) (x : α) (hx : p x = false) :
    ∀ l : List α, ∃ l2, (l ++ [x]).dropWhile p = l2 ++ [x] := by
  intro l
  induction l with
  | nil => exact ⟨[], by simp [List.dropWhile_cons, hx]⟩
  | cons a l ih =>
    by_cases ha : p a = true
    · obtain ⟨l2, h2⟩ := ih
      exact ⟨l2, by simp [List.dropWhile_cons, ha, h2]⟩
    · exact ⟨a :: l, by simp [List.dropWhile_cons, ha]⟩

/-- Trimming keeps a first character that is not white space. -/
theorem TrimSpace_cons (x : Char) (l : List Char) (hx : isSpace x = false) :
    ∃ l2, TrimSpace (x :: l) = x :: l2 := by
  unfold TrimSpace
  have h1 : (x :: l).dropWhile isSpace = x :: l := by simp [List.dropWhile_cons, hx]
  rw [h1, List.reverse_cons]
  obtain ⟨l2, h2⟩ := dropWhile_snoc isSpace x hx l.reverse
  rw [h2]
  exact ⟨l2.reverse, by simp⟩

theorem mem_TrimSpace (s : List Char) (c : Char) (h : c ∈ TrimSpace s) : c ∈ s := by
  unfold TrimSpace at h
  have h1 := (List.dropWhile_sublist isSpace).subset (List.mem_reverse.1 h)
  exact (List.dropWhile_sublist isSpace).subset (List.mem_reverse.1 h1)

theorem oneLine_firstLine (s : List Char) : oneLine (firstLine s) := by
  intro c hc
  have := List.mem_takeWhile_imp hc
  simpa using this

theorem isSpace_digit (c : Char) (h : Cls.digit.test c = true) : isSpace c = false := by
  simp only [Cls.test, Bool.and_eq_true, decide_eq_true_eq] at h
  exact isSpace_of_range c (by omega)

theorem upperChar_digit (L : Lib) (c : Char) (h : Cls.digit.test c = true) :
    upperChar L c = c := by
  simp only [Cls.test, Bool.and_eq_true, decide_eq_true_eq] at h
  unfold upperChar
  rw [if_pos (by omega)]
  unfold Char.toUpper
  simp only []
  rw [if_neg (by omega)]

theorem ToUpper_digits (L : Lib) (s : List Char) (h : isDigits s) : ToUpper L s = s := by
  unfold ToUpper
  induction s with
  | nil => rfl
  | cons c s ih =>
    simp only [List.map_cons]
    rw [upperChar_digit L c (h c (List.mem_cons_self _ _)),
      ih (fun x hx => h x (List.mem_cons_of_mem _ hx))]

/-- If a text reads both as the name followed by `r0` and as `@`, the name and
something else, then `r0` begins with `@`. -/
theorem at_overlap : ∀ (name t2 r1 r0 : List Char),
    Char.ofNat 64 :: t2 = name ++ r0 → t2 = name ++ r1 → ∃ r, r0 = Char.ofNat 64 :: r := by
  intro name
  induction name with
  | nil => intro t2 r1 r0 h _; exact ⟨t2, by simpa using h.symm⟩
  | cons c name ih =>
    intro t2 r1 r0 h h2
    simp only [List.cons_append, List.cons.injEq] at h
    obtain ⟨hc, ht⟩ := h
    subst ht
    rw [← hc] at h2
    simp only [List.cons_append] at h2
    exact ih (name ++ r1) r1 r0 h2.symm rfl

theorem firstLine_cons (x : Char) (l : List Char) (hx : x.toNat ≠ 10) :
    firstLine (x :: l) = x :: firstLine l := by
  simp [firstLine, List.takeWhile_cons, hx]

/-- When the line after the name begins, once trimmed, with a character other
than `:` and `@`, the text after the name does not begin with `:` or `@`. -/
theorem rest_head (rest l : List Char) (x : Char) (h : TrimSpace (firstLine rest) = x :: l)
    (y : Char) (hy : isSpace y = false) (hy2 : y.toNat ≠ 10) (hxy : x ≠ y) :
    ∀ r, rest ≠ y :: r := by
  intro r hr
  subst hr
  rw [firstLine_cons y r hy2] at h
  obtain ⟨l2, h2⟩ := TrimSpace_cons y (firstLine r) hy
  rw [h2] at h
  simp only [List.cons.injEq] at h
  exact hxy h.1.symm

/-- The mention pattern on a text that begins with the name, with or without `@`
before and `:` after it: group 1 is the first line of what follows. -/
theorem find_mention_line (name t lead colon rest l : List Char) (x : Char)
    (htext : t = lead ++ name ++ colon ++ rest)
    (hlead : lead = [] ∨ lead = [Char.ofNat 64])
    (hcolon : colon = [] ∨ colon = [Char.ofNat 58])
    (hcmd : TrimSpace (firstLine rest) = x :: l)
    (hx1 : x ≠ Char.ofNat 58) (hx2 : x ≠ Char.ofNat 64) :
    ∃ m, FindStringSubmatch (mentionPattern name) 1 t = [m, firstLine rest] := by
  have hr1 := rest_head rest l x hcmd (Char.ofNat 58) (by decide) (by decide) hx1
  have hr2 := rest_head rest l x hcmd (Char.ofNat 64) (by decide) (by decide) hx2
  have hac : afterColon (colon ++ rest) = rest := by
    rcases hcolon with h | h
    · subst h
      cases rest with
      | nil => rfl
      | cons y r =>
        have : y ≠ Char.ofNat 58 := fun hy => hr1 r (by rw [hy])
        simp [afterColon, this]
    · subst h; simp [afterColon]
  have hcr : ∀ r, colon ++ rest ≠ Char.ofNat 64 :: r := by
    intro r hr
    rcases hcolon with h | h
    · subst h; exact hr2 r (by simpa using hr)
    · subst h
      simp only [List.singleton_append, List.cons.injEq] at hr
      exact absurd hr.1 (by decide)
  have han : afterName name t = some (colon ++ rest) := by
    rcases hlead with h | h
    · subst h
      have ht : t = name ++ (colon ++ rest) := by simp [htext]
      cases t with
      | nil =>
        rw [afterName]
        have := matchLits_lit_append name (colon ++ rest)
        rw [← ht] at this; exact this
      | cons c t2 =>
        have hm : matchLits .lit name (c :: t2) = some (colon ++ rest) := by
          rw [ht]; exact matchLits_lit_append name (colon ++ rest)
        rw [afterName]
        by_cases hc : c = Char.ofNat 64
        · rw [if_pos hc]
          cases h1 : matchLits .lit name t2 with
          | none => exact hm
          | some r1 =>
            have h2 := matchLits_lit_some name t2 r1 h1
            rw [hc] at ht
            obtain ⟨r, hr⟩ := at_overlap name t2 r1 (colon ++ rest) ht h2
            exact absurd hr (hcr r)
        · rw [if_neg hc]; exact hm
    · subst h
      have ht : t = Char.ofNat 64 :: (name ++ (colon ++ rest)) := by simp [htext]
      rw [ht, afterName, if_pos rfl, matchLits_lit_append]
  obtain ⟨m, hm⟩ := (find_mention name t).2 _ han
  exact ⟨m, by rw [hm, hac]⟩

theorem isSpace_sameUpToCase (pfx pre : List Char) (h : sameUpToCase pfx pre)
    (hsp : ∀ c ∈ pfx, isSpace c = false) : ∀ c ∈ pre, isSpace c = false := by
  induction h with
  | nil => intro c hc; exact absurd hc (List.not_mem_nil _)
  | @cons a b l1 l2 hab _ ih =>
    intro c hc
    rcases List.mem_cons.1 hc with h1 | h1
    · subst h1
      have ha := hsp a (List.mem_cons_self _ _)
      rcases hab with h2 | h2
      · rw [h2]; exact ha
      · rw [h2]; exact isSpace_swapCase a ha
    · exact ih (fun c hc => hsp c (List.mem_cons_of_mem _ hc)) c h1

/-- The body of `HandleMessage` when the mention pattern and the resolve pattern
match. -/
theorem handle_resolve {ε : Type} (L : Lib) (s : SlackJIRABot) (exec : Call → Option ε)
    (m : MessageMessage) (mentionRe issueRe resolveRe : Re) (m0 line m1 k g2 tail : List Char)
    (hmention : FindStringSubmatch mentionRe 1 (TrimSpace m.Text.data) = [m0, line])
    (hresolve : FindStringSubmatch resolveRe 3 (TrimSpace line) = [m1, k, g2, tail]) :
    handle L s exec m mentionRe issueRe resolveRe =
      { calls := [.ResolveIssue
          (String.mk (if g2 = [] then s.JIRAProjectPrefix.data ++ "-".data ++
            ToUpper L (TrimSpace k) else ToUpper L (TrimSpace k)))
          (String.mk (TrimSpace tail))],
        err := exec (.ResolveIssue
          (String.mk (if g2 = [] then s.JIRAProjectPrefix.data ++ "-".data ++
            ToUpper L (TrimSpace k) else ToUpper L (TrimSpace k)))
          (String.mk (TrimSpace tail))) } := by
  simp [handle, hmention, hresolve]

/-- Counterexample to C4: the remainder after the bot name is
`resolve 42 fixed`, a line feed and `typo`; `ResolveIssue` is invoked with the
comment `fixed`, not with the trimmed rest of the text. -/
theorem C4_counterexample :
    (sampleBot.HandleMessage sampleLib (fun _ => (none : Option String))
        (sampleMessage "@bot: resolve 42 fixed\ntypo")).map (fun h => h.calls) =
        some [.ResolveIssue "PROJ-42" "fixed"] ∧
      String.mk (TrimSpace " fixed\ntypo".data) ≠ "fixed" := by
  decide

/-- C4 (amended). Resolve grammar: let the bot name and the project prefix be
free of pattern metacharacters, the prefix ASCII and without white space. For
every message whose trimmed text is the bot name, with or without `@` before
and `:` after it, followed by a text whose first line is, once trimmed,
`resolve <k>` or `resolve <k> <comment>`, `HandleMessage` invokes `ResolveIssue`
once, with the comment equal to the trimmed rest of that first line and the key
equal to `JIRAProjectPrefix + "-" + k` when `k` is a bare number, or to `k` in
upper case when `k` is the prefix in any letter case, `-` and a number. -/
theorem C4_resolve_grammar {ε : Type} (L : Lib) (s : SlackJIRABot) (exec : Call → Option ε)
    (m : MessageMessage) (lead colon rest k tail key : List Char)
    (hname : isLiteral s.Session.Self.Name.data = true)
    (hpfx : isLiteralASCII s.JIRAProjectPrefix.data = true)
    (hsp : ∀ c ∈ s.JIRAProjectPrefix.data, isSpace c = false)
    (htext : TrimSpace m.Text.data = lead ++ s.Session.Self.Name.data ++ colon ++ rest)
    (hlead : lead = [] ∨ lead = [Char.ofNat 64])
    (hcolon : colon = [] ∨ colon = [Char.ofNat 58])
    (hcmd : TrimSpace (firstLine rest) = "resolve ".data ++ k ++ tail)
    (htail : tail = [] ∨ ∃ cm, tail = Char.ofNat 32 :: cm)
    (hk : (isDigits k ∧ k ≠ [] ∧ key = s.JIRAProjectPrefix.data ++ "-".data ++ k) ∨
      (∃ pre ds, k = pre ++ Char.ofNat 45 :: ds ∧ sameUpToCase s.JIRAProjectPrefix.data pre ∧
        isDigits ds ∧ ds ≠ [] ∧ key = ToUpper L k)) :
    s.HandleMessage L exec m =
      some { calls := [.ResolveIssue (String.mk key) (String.mk (TrimSpace tail))],
             err := exec (.ResolveIssue (String.mk key) (String.mk (TrimSpace tail))) } := by
  have hcmd2 : TrimSpace (firstLine rest) =
      Char.ofNat 114 :: ("esolve ".data ++ k ++ tail) := by rw [hcmd]; rfl
  obtain ⟨m0, hmention⟩ := find_mention_line s.Session.Self.Name.data (TrimSpace m.Text.data)
    lead colon rest _ _ htext hlead hcolon hcmd2 (by decide) (by decide)
  have hone : oneLine tail := by
    intro c hc
    have h1 : c ∈ TrimSpace (firstLine rest) := by
      rw [hcmd]; exact List.mem_append_right _ hc
    exact oneLine_firstLine rest c (mem_TrimSpace _ c h1)
  have hcmd3 : TrimSpace (firstLine rest) = "resolve ".data ++ (k ++ tail) := by
    rw [hcmd, List.append_assoc]
  unfold SlackJIRABot.HandleMessage
  simp only [mentionRegexp, issueRegexp, resolveRegexp, hname, hpfx, if_true]
  rcases hk with ⟨hds, hne, hkey⟩ | ⟨pre, ds, hkd, hpre, hds, hne, hkey⟩
  · obtain ⟨tl, hrun⟩ := run_key_bare s.JIRAProjectPrefix.data hsp k tail 8 [] hds hne htail
    obtain ⟨m1, hres⟩ := find_resolve s.JIRAProjectPrefix.data k tail [] tl hrun hone
    rw [← hcmd3] at hres
    rw [handle_resolve L s exec m _ _ _ m0 _ m1 k _ tail hmention hres]
    have htrim : TrimSpace k = k := TrimSpace_id k (fun c hc => isSpace_digit c (hds c hc))
    have hcap : capture ([] : List (Nat × List Char)) 2 = [] := rfl
    simp only [hcap, if_true, htrim, ToUpper_digits L k hds, hkey]
  · have hall : ∀ c ∈ k, isSpace c = false := by
      intro c hc
      rw [hkd] at hc
      rcases List.mem_append.1 hc with h1 | h1
      · exact isSpace_sameUpToCase _ pre hpre hsp c h1
      · rcases List.mem_cons.1 h1 with h2 | h2
        · rw [h2]; decide
        · exact isSpace_digit c (hds c h2)
    subst hkd
    obtain ⟨tl, hrun⟩ := run_key_full s.JIRAProjectPrefix.data pre hpre ds tail 8 [] hds hne htail
    obtain ⟨m1, hres⟩ := find_resolve s.JIRAProjectPrefix.data (pre ++ Char.ofNat 45 :: ds) tail
      [(2, pre ++ [Char.ofNat 45])] tl hrun hone
    rw [← hcmd3] at hres
    rw [handle_resolve L s exec m _ _ _ m0 _ m1 _ _ tail hmention hres]
    have htrim := TrimSpace_id _ hall
    have hcap : capture [(2, pre ++ [Char.ofNat 45])] 2 = pre ++ [Char.ofNat 45] := by
      simp [capture, List.lookup]
    have hne2 : ¬ (pre ++ [Char.ofNat 45] = []) := by simp
    simp only [hcap, hne2, if_false, htrim, hkey]

/-- Witness of C4 (amended): with the bot name `bot` and the prefix `PROJ`, the
message `@bot: resolve 42 fixed typo` yields `ResolveIssue("PROJ-42", "fixed
typo")`. -/
theorem C4_resolve_grammar_witness :
    sampleBot.HandleMessage sampleLib (fun _ => (none : Option String))
        (sampleMessage "@bot: resolve 42 fixed typo") =
      some { calls := [.ResolveIssue "PROJ-42" "fixed typo"], err := none } :=
  C4_resolve_grammar sampleLib sampleBot (fun _ => none)
    (sampleMessage "@bot: resolve 42 fixed typo") "@".data ":".data
    " resolve 42 fixed typo".data "42".data " fixed typo".data "PROJ-42".data
    (by decide) (by decide) (by decide) (by decide) (Or.inr rfl) (Or.inr rfl) (by decide)
    (Or.inr ⟨"fixed typo".data, rfl⟩) (Or.inl ⟨by unfold isDigits; decide, by decide, rfl⟩)

theorem afterName_some (name t r : List Char) (h : afterName name t = some r) :
    t = name ++ r ∨ t = Char.ofNat 64 :: (name ++ r) := by
  cases t with
  | nil =>
    rw [afterName] at h
    exact Or.inl (matchLits_lit_some name [] r h)
  | cons c t2 =>
    rw [afterName] at h
    by_cases hc : c = Char.ofNat 64
    · rw [if_pos hc] at h
      cases h1 : matchLits .lit name t2 with
      | none =>
        rw [h1] at h
        exact Or.inl (matchLits_lit_some name _ r h)
      | some r1 =>
        rw [h1] at h
        simp only [Option.some.injEq] at h
        subst h
        exact Or.inr (by rw [hc, matchLits_lit_some name t2 r1 h1])
    · rw [if_neg hc] at h
      exact Or.inl (matchLits_lit_some name _ r h)

theorem scanIssueKey_calls {ε : Type} (L : Lib) (exec : Call → Option ε) (m : MessageMessage)
    (issueRe : Re) (t : List Char) (c : Call) (hc : c ∈ (scanIssueKey L exec m issueRe t).calls) :
    ∃ ch key, c = .PostIssue ch key := by
  unfold scanIssueKey at hc
  simp only [] at hc
  split at hc
  · simp only [List.mem_singleton] at hc
    exact ⟨_, _, hc⟩
  · exact absurd hc (List.not_mem_nil _)

/-- A call of `ResolveIssue` or `PostCurrentSprint` is made only when the mention
pattern matches. -/
theorem handle_command {ε : Type} (L : Lib) (s : SlackJIRABot) (exec : Call → Option ε)
    (m : MessageMessage) (mentionRe issueRe resolveRe : Re) (c : Call)
    (hc : c ∈ (handle L s exec m mentionRe issueRe resolveRe).calls)
    (hkind : (∃ key cm, c = .ResolveIssue key cm) ∨ (∃ ch f, c = .PostCurrentSprint ch f)) :
    FindStringSubmatch mentionRe 1 (TrimSpace m.Text.data) ≠ [] := by
  intro hnil
  have hcalls : handle L s exec m mentionRe issueRe resolveRe =
      scanIssueKey L exec m issueRe (TrimSpace m.Text.data) := by
    simp [handle, hnil]
  rw [hcalls] at hc
  obtain ⟨ch, key, hp⟩ := scanIssueKey_calls L exec m issueRe _ c hc
  rcases hkind with ⟨k, cm, h⟩ | ⟨ch2, f, h⟩ <;> rw [h] at hp <;> cases hp

/-- Counterexample to C8: with the bot name `bot`, the texts `botsprint` and
`botresolve 42`, in which the name is followed directly by another character,
trigger `PostCurrentSprint` and `ResolveIssue`. -/
theorem C8_counterexample :
    (sampleBot.HandleMessage sampleLib (fun _ => (none : Option String))
        (sampleMessage "botsprint")).map (fun h => h.calls) =
        some [.PostCurrentSprint "C1" []] ∧
      (sampleBot.HandleMessage sampleLib (fun _ => (none : Option String))
        (sampleMessage "botresolve 42")).map (fun h => h.calls) =
        some [.ResolveIssue "PROJ-42" ""] := by
  decide


/-- The resolve pattern does not match a text that begins with `sprint`. -/
theorem find_resolve_sprint (pfx args : List Char) :
    FindStringSubmatch (resolvePattern pfx) 3 ("sprint".data ++ args) = [] := by
  have hm : matchLits .lit "resolve ".data ("sprint".data ++ args) = none := rfl
  have hrun : (cat [lits .lit "resolve ".data, .group 1 (keyPattern pfx),
      .group 3 (.star .dot), .eol]).run ⟨0, "sprint".data ++ args, []⟩ = [] := by
    rw [run_cat_cons, run_lits]
    simp only [hm, List.flatMap_nil]
  simp only [FindStringSubmatch, resolvePattern, search_bol, hrun]

/-- The sprint pattern on `sprint` followed by a text without line feed: group 1
is that text. -/
theorem find_sprint (args : List Char) (hone : oneLine args) :
    ∃ m, FindStringSubmatch sprintRexep 1 ("sprint".data ++ args) = [m, args] := by
  obtain ⟨tl, hend⟩ := run_dotsEnd 1 6 args [] hone
  have hrun : (cat [lits .lit "sprint".data, .group 1 (.star .dot), .eol]).run
      ⟨0, "sprint".data ++ args, []⟩ = ⟨6 + args.length, [], [(1, args)]⟩ :: tl := by
    rw [run_cat_cons, run_lits]
    simp only [matchLits_lit_append]
    have h6 : (0 + "sprint".data.length) = 6 := by decide
    rw [h6]
    simp only [List.flatMap_cons, List.flatMap_nil, List.append_nil]
    exact hend
  refine ⟨("sprint".data ++ args).take (6 + args.length), ?_⟩
  simp only [FindStringSubmatch, sprintRexep, search_bol, hrun]
  have hr : List.range 1 = [0] := by decide
  simp [hr, capture, List.lookup]

/-- The body of `HandleMessage` when the mention pattern and the sprint pattern
match and the resolve pattern does not. -/
theorem handle_sprint {ε : Type} (L : Lib) (s : SlackJIRABot) (exec : Call → Option ε)
    (m : MessageMessage) (mentionRe issueRe resolveRe : Re) (m0 line m1 args : List Char)
    (hmention : FindStringSubmatch mentionRe 1 (TrimSpace m.Text.data) = [m0, line])
    (hresolve : FindStringSubmatch resolveRe 3 (TrimSpace line) = [])
    (hsprint : FindStringSubmatch sprintRexep 1 (TrimSpace line) = [m1, args]) :
    handle L s exec m mentionRe issueRe resolveRe =
      { calls := [.PostCurrentSprint m.Channel (sprintFilters args)],
        err := exec (.PostCurrentSprint m.Channel (sprintFilters args)) } := by
  simp [handle, hmention, hresolve, hsprint, sprintFilters]

/-- The body of `HandleMessage` on a mention whose first line after the name is
`sprint` followed by arguments. -/
theorem handle_sprint_text {ε : Type} (L : Lib) (s : SlackJIRABot) (exec : Call → Option ε)
    (m : MessageMessage) (issueRe : Re) (rest args : List Char)
    (hmen : isMentionOf s.Session.Self.Name.data (TrimSpace m.Text.data) rest)
    (hcmd : TrimSpace (firstLine rest) = "sprint".data ++ args) :
    handle L s exec m (mentionPattern s.Session.Self.Name.data) issueRe
        (resolvePattern s.JIRAProjectPrefix.data) =
      { calls := [.PostCurrentSprint m.Channel (sprintFilters args)],
        err := exec (.PostCurrentSprint m.Channel (sprintFilters args)) } := by
  obtain ⟨lead, colon, htext, hlead, hcolon⟩ := hmen
  have hcmd2 : TrimSpace (firstLine rest) = Char.ofNat 115 :: ("print".data ++ args) := by
    rw [hcmd]; rfl
  obtain ⟨m0, hmention⟩ := find_mention_line s.Session.Self.Name.data (TrimSpace m.Text.data)
    lead colon rest _ _ htext hlead hcolon hcmd2 (by decide) (by decide)
  have hone : oneLine args := by
    intro c hc
    have h1 : c ∈ TrimSpace (firstLine rest) := by
      rw [hcmd]; exact List.mem_append_right _ hc
    exact oneLine_firstLine rest c (mem_TrimSpace _ c h1)
  have hres := find_resolve_sprint s.JIRAProjectPrefix.data args
  obtain ⟨m1, hsp⟩ := find_sprint args hone
  rw [← hcmd] at hres hsp
  exact handle_sprint L s exec m _ _ _ m0 _ m1 args hmention hres hsp

/-- The body of `HandleMessage` on a mention whose first line after the name is
`resolve`, a key and an optional comment. -/
theorem handle_resolve_text {ε : Type} (L : Lib) (s : SlackJIRABot) (exec : Call → Option ε)
    (m : MessageMessage) (issueRe : Re) (rest k tail key : List Char)
    (hsp : ∀ c ∈ s.JIRAProjectPrefix.data, isSpace c = false)
    (hmen : isMentionOf s.Session.Self.Name.data (TrimSpace m.Text.data) rest)
    (hcmd : TrimSpace (firstLine rest) = "resolve ".data ++ k ++ tail)
    (htail : tail = [] ∨ ∃ cm, tail = Char.ofNat 32 :: cm)
    (hk : (isDigits k ∧ k ≠ [] ∧ key = s.JIRAProjectPrefix.data ++ "-".data ++ k) ∨
      (∃ pre ds, k = pre ++ Char.ofNat 45 :: ds ∧ sameUpToCase s.JIRAProjectPrefix.data pre ∧
        isDigits ds ∧ ds ≠ [] ∧ key = ToUpper L k)) :
    handle L s exec m (mentionPattern s.Session.Self.Name.data) issueRe
        (resolvePattern s.JIRAProjectPrefix.data) =
      { calls := [.ResolveIssue (String.mk key) (String.mk (TrimSpace tail))],
        err := exec (.ResolveIssue (String.mk key) (String.mk (TrimSpace tail))) } := by
  obtain ⟨lead, colon, htext, hlead, hcolon⟩ := hmen
  have hcmd2 : TrimSpace (firstLine rest) =
      Char.ofNat 114 :: ("esolve ".data ++ k ++ tail) := by rw [hcmd]; rfl
  obtain ⟨m0, hmention⟩ := find_mention_line s.Session.Self.Name.data (TrimSpace m.Text.data)
    lead colon rest _ _ htext hlead hcolon hcmd2 (by decide) (by decide)
  have hone : oneLine tail := by
    intro c hc
    have h1 : c ∈ TrimSpace (firstLine rest) := by
      rw [hcmd]; exact List.mem_append_right _ hc
    exact oneLine_firstLine rest c (mem_TrimSpace _ c h1)
  have hcmd3 : TrimSpace (firstLine rest) = "resolve ".data ++ (k ++ tail) := by
    rw [hcmd, List.append_assoc]
  rcases hk with ⟨hds, hne, hkey⟩ | ⟨pre, ds, hkd, hpre, hds, hne, hkey⟩
  · obtain ⟨tl, hrun⟩ := run_key_bare s.JIRAProjectPrefix.data hsp k tail 8 [] hds hne htail
    obtain ⟨m1, hres⟩ := find_resolve s.JIRAProjectPrefix.data k tail [] tl hrun hone
    rw [← hcmd3] at hres
    rw [handle_resolve L s exec m _ _ _ m0 _ m1 k _ tail hmention hres]
    have htrim : TrimSpace k = k := TrimSpace_id k (fun c hc => isSpace_digit c (hds c hc))
    have hcap : capture ([] : List (Nat × List Char)) 2 = [] := rfl
    simp only [hcap, if_true, htrim, ToUpper_digits L k hds, hkey]
  · have hall : ∀ c ∈ k, isSpace c = false := by
      intro c hc
      rw [hkd] at hc
      rcases List.mem_append.1 hc with h1 | h1
      · exact isSpace_sameUpToCase _ pre hpre hsp c h1
      · rcases List.mem_cons.1 h1 with h2 | h2
        · rw [h2]; decide
        · exact isSpace_digit c (hds c h2)
    subst hkd
    obtain ⟨tl, hrun⟩ := run_key_full s.JIRAProjectPrefix.data pre hpre ds tail 8 [] hds hne htail
    obtain ⟨m1, hres⟩ := find_resolve s.JIRAProjectPrefix.data (pre ++ Char.ofNat 45 :: ds) tail
      [(2, pre ++ [Char.ofNat 45])] tl hrun hone
    rw [← hcmd3] at hres
    rw [handle_resolve L s exec m _ _ _ m0 _ m1 _ _ tail hmention hres]
    have htrim := TrimSpace_id _ hall
    have hcap : capture [(2, pre ++ [Char.ofNat 45])] 2 = pre ++ [Char.ofNat 45] := by
      simp [capture, List.lookup]
    have hne2 : ¬ (pre ++ [Char.ofNat 45] = []) := by simp
    simp only [hcap, hne2, if_false, htrim, hkey]

/-- The text after the name is found whenever the text starts with the name,
with or without an `@` before it. -/
theorem afterName_of_starts (name t : List Char) (h : startsWithName name t) :
    ∃ r, afterName name t = some r := by
  obtain ⟨rest, h1 | h1⟩ := h
  · have hm : matchLits .lit name t = some rest := by
      rw [h1]; exact matchLits_lit_append name rest
    cases t with
    | nil => exact ⟨rest, by rw [afterName]; exact hm⟩
    | cons c t2 =>
      rw [afterName]
      by_cases hc : c = Char.ofNat 64
      · rw [if_pos hc]
        cases h2 : matchLits .lit name t2 with
        | none => exact ⟨rest, hm⟩
        | some r1 => exact ⟨r1, rfl⟩
      · rw [if_neg hc]; exact ⟨rest, hm⟩
  · rw [h1, afterName, if_pos rfl, matchLits_lit_append]
    exact ⟨rest, rfl⟩

/-- The mention check `len(submatches) > 1` passes exactly for the texts that
start with the name, with or without an `@` before it. -/
theorem mention_iff (name t : List Char) :
    (FindStringSubmatch (mentionPattern name) 1 t).length > 1 ↔ startsWithName name t := by
  constructor
  · intro h
    cases han : afterName name t with
    | none =>
      rw [(find_mention name t).1 han] at h
      exact absurd h (by decide)
    | some r => exact ⟨r, afterName_some name t r han⟩
  · intro h
    obtain ⟨r, hr⟩ := afterName_of_starts name t h
    obtain ⟨m, hm⟩ := (find_mention name t).2 r hr
    rw [hm]; simp

/-- In the domain of the embedding `HandleMessage` is its body run with the three
patterns of the source. -/
theorem HandleMessage_eq {ε : Type} (L : Lib) (s : SlackJIRABot) (exec : Call → Option ε)
    (m : MessageMessage) (hname : isLiteral s.Session.Self.Name.data = true)
    (hpfx : isLiteralASCII s.JIRAProjectPrefix.data = true) :
    s.HandleMessage L exec m =
      some (handle L s exec m (mentionPattern s.Session.Self.Name.data)
        (issuePattern s.JIRAProjectPrefix.data) (resolvePattern s.JIRAProjectPrefix.data)) := by
  unfold SlackJIRABot.HandleMessage
  simp only [mentionRegexp, issueRegexp, resolveRegexp, hname, hpfx, if_true]

/-- C8 (amended). Mention check, for a bot name free of pattern metacharacters
and a project prefix that is ASCII and free of them: `HandleMessage` treats a
message as a mention exactly when its trimmed text starts with the bot name,
with or without an `@` before it; the `:` after the name is optional and
nothing is required between the name and the command.
The check: the mention pattern yields submatches (`len(submatches) > 1`) if and
only if the trimmed text starts so.
Only if: `ResolveIssue` or `PostCurrentSprint` is invoked only when the trimmed
text starts so (by the body of `HandleMessage` whatever the issue and resolve
patterns are, hence by `HandleMessage`).
If: when the trimmed text is the name (with or without `@` before and `:` after
it) followed by a text whose first line is, once trimmed, `sprint` and
arguments, `PostCurrentSprint` is invoked with the channel and the components
named by the arguments; when that first line is `resolve <k>` or
`resolve <k> <comment>` (the prefix without white space), `ResolveIssue` is
invoked with the key and the comment. Both hold when the name is followed
directly by the command, as in `botsprint` and `botresolve 42`. -/
theorem C8_mention_check {ε : Type} (L : Lib) (s : SlackJIRABot) (exec : Call → Option ε)
    (m : MessageMessage) (hname : isLiteral s.Session.Self.Name.data = true)
    (hpfx : isLiteralASCII s.JIRAProjectPrefix.data = true) :
    ((FindStringSubmatch (mentionPattern s.Session.Self.Name.data) 1
        (TrimSpace m.Text.data)).length > 1 ↔
      startsWithName s.Session.Self.Name.data (TrimSpace m.Text.data)) ∧
    (∀ (issueRe resolveRe : Re) (c : Call),
      c ∈ (handle L s exec m (mentionPattern s.Session.Self.Name.data) issueRe resolveRe).calls →
      isCommand c → startsWithName s.Session.Self.Name.data (TrimSpace m.Text.data)) ∧
    (∀ (h : Handled ε) (c : Call), s.HandleMessage L exec m = some h → c ∈ h.calls →
      isCommand c → startsWithName s.Session.Self.Name.data (TrimSpace m.Text.data)) ∧
    (∀ rest args : List Char,
      isMentionOf s.Session.Self.Name.data (TrimSpace m.Text.data) rest →
      TrimSpace (firstLine rest) = "sprint".data ++ args →
      s.HandleMessage L exec m =
        some { calls := [.PostCurrentSprint m.Channel (sprintFilters args)],
               err := exec (.PostCurrentSprint m.Channel (sprintFilters args)) }) ∧
    (∀ rest k tail key : List Char,
      isMentionOf s.Session.Self.Name.data (TrimSpace m.Text.data) rest →
      TrimSpace (firstLine rest) = "resolve ".data ++ k ++ tail →
      (∀ c ∈ s.JIRAProjectPrefix.data, isSpace c = false) →
      (tail = [] ∨ ∃ cm, tail = Char.ofNat 32 :: cm) →
      ((isDigits k ∧ k ≠ [] ∧ key = s.JIRAProjectPrefix.data ++ "-".data ++ k) ∨
        (∃ pre ds, k = pre ++ Char.ofNat 45 :: ds ∧
          sameUpToCase s.JIRAProjectPrefix.data pre ∧ isDigits ds ∧ ds ≠ [] ∧
          key = ToUpper L k)) →
      s.HandleMessage L exec m =
        some { calls := [.ResolveIssue (String.mk key) (String.mk (TrimSpace tail))],
               err := exec (.ResolveIssue (String.mk key) (String.mk (TrimSpace tail))) }) := by
  have heq := HandleMessage_eq L s exec m hname hpfx
  have honly : ∀ (issueRe resolveRe : Re) (c : Call),
      c ∈ (handle L s exec m (mentionPattern s.Session.Self.Name.data) issueRe resolveRe).calls →
      isCommand c → startsWithName s.Session.Self.Name.data (TrimSpace m.Text.data) := by
    intro issueRe resolveRe c hc hkind
    have hne := handle_command L s exec m _ _ _ c hc hkind
    cases han : afterName s.Session.Self.Name.data (TrimSpace m.Text.data) with
    | none => exact absurd ((find_mention _ _).1 han) hne
    | some r => exact ⟨r, afterName_some _ _ r han⟩
  refine ⟨mention_iff _ _, honly, ?_, ?_, ?_⟩
  · intro h c hh hc hkind
    rw [heq] at hh
    simp only [Option.some.injEq] at hh
    subst hh
    exact honly _ _ c hc hkind
  · intro rest args hmen hcmd
    rw [heq, handle_sprint_text L s exec m _ rest args hmen hcmd]
  · intro rest k tail key hmen hcmd hsp htail hk
    rw [heq, handle_resolve_text L s exec m _ rest k tail key hsp hmen hcmd htail hk]

/-- Witness of C8 (amended): with the bot name `bot` and the prefix `PROJ`, the
texts `botsprint` and `botresolve 42`, in which the name is followed directly by
the command, invoke `PostCurrentSprint` and `ResolveIssue`. -/
theorem C8_mention_check_witness :
    sampleBot.HandleMessage sampleLib (fun _ => (none : Option String))
        (sampleMessage "botsprint") =
        some { calls := [.PostCurrentSprint "C1" []], err := none } ∧
      sampleBot.HandleMessage sampleLib (fun _ => (none : Option String))
        (sampleMessage "botresolve 42") =
        some { calls := [.ResolveIssue "PROJ-42" ""], err := none } ∧
      startsWithName sampleBot.Session.Self.Name.data
        (TrimSpace (sampleMessage "botsprint").Text.data) :=
  ⟨(C8_mention_check sampleLib sampleBot (fun _ => (none : Option String))
      (sampleMessage "botsprint") (by decide) (by decide)).2.2.2.1 "sprint".data []
      ⟨[], [], rfl, Or.inl rfl, Or.inl rfl⟩ rfl,
    (C8_mention_check sampleLib sampleBot (fun _ => (none : Option String))
      (sampleMessage "botresolve 42") (by decide) (by decide)).2.2.2.2 "resolve 42".data
      "42".data [] "PROJ-42".data ⟨[], [], rfl, Or.inl rfl, Or.inl rfl⟩ rfl (by decide)
      (Or.inl rfl) (Or.inl ⟨by unfold isDigits; decide, by decide, rfl⟩),
    (C8_mention_check sampleLib sampleBot (fun _ => (none : Option String))
      (sampleMessage "botsprint") (by decide) (by decide)).2.2.1
      ⟨[.PostCurrentSprint "C1" []], none⟩ (.PostCurrentSprint "C1" []) rfl
      (List.mem_singleton.2 rfl) (Or.inr ⟨"C1", [], rfl⟩)⟩

/-- Counterexample to C9: the message `@bot: what about PROJ-7` passes the
mention check and matches neither grammar, and yet `PostIssue` is invoked. -/
theorem C9_counterexample :
    FindStringSubmatch (mentionPattern "bot".data) 1 (TrimSpace "@bot: what about PROJ-7".data) =
        ["@bot: what about PROJ-7".data, " what about PROJ-7".data] ∧
      FindStringSubmatch (resolvePattern "PROJ".data) 3 "what about PROJ-7".data = [] ∧
      FindStringSubmatch sprintRexep 1 "what about PROJ-7".data = [] ∧
      (sampleBot.HandleMessage sampleLib (fun _ => (none : Option String))
        (sampleMessage "@bot: what about PROJ-7")).map (fun h => h.calls) =
        some [.PostIssue "C1" "PROJ-7"] := by
  decide

/-- C9 (amended). For every message that passes the mention check and whose
remainder matches neither the resolve pattern nor the sprint pattern, the body
of `HandleMessage` invokes neither `ResolveIssue` nor `PostCurrentSprint`; it
goes on to search the trimmed text for an issue key: when there is none it
performs no action and returns nil, and when there is one it invokes `PostIssue`
with the channel and the key in upper case and returns what `PostIssue` returns.
This is the control flow after the three matches and holds whatever the
patterns `mentionRe`, `issueRe` and `resolveRe` are; whenever these are the
patterns that `HandleMessage` compiles (the embedding gives them for a bot name
free of pattern metacharacters and an ASCII project prefix free of them), it is
what `HandleMessage` does. -/
theorem C9_unmatched_mention {ε : Type} (L : Lib) (s : SlackJIRABot) (exec : Call → Option ε)
    (m : MessageMessage) (mentionRe issueRe resolveRe : Re)
    (hmention : (FindStringSubmatch mentionRe 1 (TrimSpace m.Text.data)).length > 1)
    (hresolve : (FindStringSubmatch resolveRe 3
      (TrimSpace ((FindStringSubmatch mentionRe 1 (TrimSpace m.Text.data)).getD 1 []))).length
        ≠ 4)
    (hsprint : ¬ (FindStringSubmatch sprintRexep 1
      (TrimSpace ((FindStringSubmatch mentionRe 1 (TrimSpace m.Text.data)).getD 1 []))).length
        > 0) :
    (∀ c ∈ (handle L s exec m mentionRe issueRe resolveRe).calls, ¬ isCommand c) ∧
    (FindString issueRe (TrimSpace m.Text.data) = [] →
      handle L s exec m mentionRe issueRe resolveRe = { calls := [], err := none }) ∧
    (FindString issueRe (TrimSpace m.Text.data) ≠ [] →
      handle L s exec m mentionRe issueRe resolveRe =
        { calls := [.PostIssue m.Channel (String.mk (ToUpper L
            (FindString issueRe (TrimSpace m.Text.data))))],
          err := exec (.PostIssue m.Channel (String.mk (ToUpper L
            (FindString issueRe (TrimSpace m.Text.data))))) }) ∧
    (mentionRegexp s.Session.Self.Name.data = some mentionRe →
      issueRegexp s.JIRAProjectPrefix.data = some issueRe →
      resolveRegexp s.JIRAProjectPrefix.data = some resolveRe →
      s.HandleMessage L exec m = some (handle L s exec m mentionRe issueRe resolveRe)) := by
  have hfall : handle L s exec m mentionRe issueRe resolveRe =
      scanIssueKey L exec m issueRe (TrimSpace m.Text.data) := by
    simp only [handle, hmention, if_true, hresolve, if_false, hsprint]
  refine ⟨?_, ?_, ?_, ?_⟩
  · intro c hc hkind
    rw [hfall] at hc
    obtain ⟨ch, key, hp⟩ := scanIssueKey_calls L exec m issueRe _ c hc
    rcases hkind with ⟨k, cm, h⟩ | ⟨ch2, f, h⟩ <;> rw [h] at hp <;> cases hp
  · intro h
    rw [hfall]; simp [scanIssueKey, h]
  · intro h
    rw [hfall]; simp [scanIssueKey, h]
  · intro h1 h2 h3
    unfold SlackJIRABot.HandleMessage
    rw [h1, h2, h3]

/-- Witness of C9 (amended): `@bot: hello` is a mention that matches neither
pattern and holds no issue key; nothing is done. -/
theorem C9_unmatched_mention_witness :
    sampleBot.HandleMessage sampleLib (fun _ => (none : Option String))
        (sampleMessage "@bot: hello") = some { calls := [], err := none } := by
  have h := C9_unmatched_mention sampleLib sampleBot (fun _ => (none : Option String))
    (sampleMessage "@bot: hello") (mentionPattern "bot".data) (issuePattern "PROJ".data)
    (resolvePattern "PROJ".data) (by decide) (by decide) (by decide)
  rw [h.2.2.2 rfl rfl rfl, h.2.1 (by decide)]

/-! ### A tracker that answers with an empty page of size zero -/

/-- Against a tracker that answers every request with status 200 and a page
without items whose `maxResults` is 0, each iteration of the loop sends the
request for the offset it was entered with and leaves the offset unchanged. -/
theorem fetchLoop_emptyPage {α : Type} (L : Lib) (url : String) (hurl : L.urlOK url = true) :
    ∀ (fuel : Nat) (acc : List α) (log : List Request),
      fetchLoop L (constJIRA (⟨⟨0, 0⟩, []⟩ : Paginated α)) Except.ok url fuel 0 acc log =
        { requests := log ++ List.replicate fuel
            (withAuth (constJIRA (⟨⟨0, 0⟩, []⟩ : Paginated α))
              ⟨"GET", url, some 0, none, none, none⟩),
          outcome := none } := by
  intro fuel
  induction fuel with
  | zero => intro acc log; simp [fetchLoop]
  | succ fuel ih =>
    intro acc log
    simp only [fetchLoop, NewRequest, hurl, if_true, JIRA.DoWithAuth, constJIRA, ne_eq,
      not_true_eq_false, if_false, List.length_nil, Nat.cast_zero, add_zero, List.append_nil]
    have h := ih acc (log ++ [withAuth (constJIRA (⟨⟨0, 0⟩, []⟩ : Paginated α))
      ⟨"GET", url, some 0, none, none, none⟩])
    simp only [constJIRA] at h
    rw [h]
    simp [List.replicate_succ]

/-- C11 (the code at the failing input). A tracker answers every request with
status 200 and the page that the body `{}` decodes to: no items and
`maxResults = 0`. Whatever the bound on the iterations, `GetSprintsOfBoard` and
`GetIssuesOfSprint` have not returned when it is reached, and every request
they sent asks for the offset 0: the offsets do not increase and the fetch
never ends. -/
theorem C11_repeated_offset (fuel : Nat) (boardID : String) (sprintID : Int) :
    ((constJIRA (⟨⟨0, 0⟩, []⟩ : PaginatedSprints)).GetSprintsOfBoard sampleLib Except.ok fuel
        boardID).outcome = none ∧
      ((constJIRA (⟨⟨0, 0⟩, []⟩ : PaginatedSprints)).GetSprintsOfBoard sampleLib Except.ok fuel
        boardID).requests.map (fun r => r.StartAt) = List.replicate fuel (some 0) ∧
      ((constJIRA (⟨⟨0, 0⟩, []⟩ : PaginatedIssues)).GetIssuesOfSprint sampleLib Except.ok fuel
        boardID sprintID).outcome = none ∧
      ((constJIRA (⟨⟨0, 0⟩, []⟩ : PaginatedIssues)).GetIssuesOfSprint sampleLib Except.ok fuel
        boardID sprintID).requests.map (fun r => r.StartAt) = List.replicate fuel (some 0) := by
  unfold JIRA.GetSprintsOfBoard JIRA.GetIssuesOfSprint
  rw [fetchLoop_emptyPage sampleLib _ rfl, fetchLoop_emptyPage sampleLib _ rfl]
  simp [withAuth]

end SlackJiraBot
